import Mathlib

/-!
gosp: a reflection-driven binary struct parser

A shallow embedding of `parser.go` (package `parser`) and a verification of
its specification.

* A `reflect.Type` is a `GoType`: a basic (unnamed, predeclared) type given by
  its `reflect.Kind`, a struct type given by the types of its fields in
  declaration order, or a fixed-length array type.  Struct fields are exported
  (settable through reflection); the parser never looks at field names, so a
  field is identified by its declaration index.
* A `reflect.Value` is a `Value`, which carries its Go type, because
  `reflect.Value.Set` panics unless the assigned value has the type of the
  target.
* An `*os.File` opened on a regular file is the list of the bytes that remain
  after the read cursor.  `Read` fills as much of the buffer as the remaining
  bytes allow and advances the cursor by the number of bytes copied.
* Every function that touches the stream returns its result together with the
  stream it leaves behind.  A result is a value, one of the errors the source
  builds with `errors.New`, or a run-time panic.
* Sizes are those of a 64-bit target (`int`, `uint` and `uintptr` are 8 bytes
  wide).
-/

namespace Gosp

/-! ## Kinds, types and values -/

/-- The kinds of `reflect.Kind`, in the order of their numeric values. -/
inductive Kind
  | Invalid | Bool | Int | Int8 | Int16 | Int32 | Int64
  | Uint | Uint8 | Uint16 | Uint32 | Uint64 | Uintptr
  | Float32 | Float64 | Complex64 | Complex128
  | Array | Chan | Func | Interface | Map | Pointer | Slice | String | Struct
  | UnsafePointer
  deriving DecidableEq, Repr

/-- The numeric value of a `reflect.Kind` constant. -/
def Kind.toNat : Kind → Nat
  | .Invalid => 0 | .Bool => 1 | .Int => 2 | .Int8 => 3 | .Int16 => 4
  | .Int32 => 5 | .Int64 => 6 | .Uint => 7 | .Uint8 => 8 | .Uint16 => 9
  | .Uint32 => 10 | .Uint64 => 11 | .Uintptr => 12 | .Float32 => 13
  | .Float64 => 14 | .Complex64 => 15 | .Complex128 => 16 | .Array => 17
  | .Chan => 18 | .Func => 19 | .Interface => 20 | .Map => 21 | .Pointer => 22
  | .Slice => 23 | .String => 24 | .Struct => 25 | .UnsafePointer => 26

/-- The result of `reflect.Type.Size` for a basic type of the given kind on a
64-bit target.  Array and struct sizes depend on the whole type and are never
asked for by the parser; they and `Invalid` are given 0 here. -/
def Kind.Size : Kind → Nat
  | .Invalid => 0 | .Bool => 1 | .Int => 8 | .Int8 => 1 | .Int16 => 2
  | .Int32 => 4 | .Int64 => 8 | .Uint => 8 | .Uint8 => 1 | .Uint16 => 2
  | .Uint32 => 4 | .Uint64 => 8 | .Uintptr => 8 | .Float32 => 4
  | .Float64 => 8 | .Complex64 => 8 | .Complex128 => 16 | .Array => 0
  | .Chan => 8 | .Func => 8 | .Interface => 16 | .Map => 8 | .Pointer => 8
  | .Slice => 24 | .String => 16 | .Struct => 0 | .UnsafePointer => 8

/-- A `reflect.Type`.  `basic k` is the predeclared type of kind `k`, for the
kinds other than `Array` and `Struct`. -/
inductive GoType
  | basic (k : Kind)
  | struct (fields : List GoType)
  | array (len : Nat) (elem : GoType)
  deriving Repr

/-- The result of `reflect.Type.Kind`. -/
def GoType.Kind : GoType → Kind
  | .basic k => k
  | .struct _ => .Struct
  | .array _ _ => .Array

mutual
/-- Equality of types is decidable. -/
def GoType.decEq : (a b : GoType) → Decidable (a = b)
  | .basic k, .basic l =>
    if h : k = l then isTrue (by rw [h]) else isFalse (fun h2 => by cases h2; exact h rfl)
  | .struct fs, .struct gs =>
    match GoType.decEqList fs gs with
    | isTrue h => isTrue (by rw [h])
    | isFalse h => isFalse (fun h2 => by cases h2; exact h rfl)
  | .array n e, .array m f =>
    if h : n = m then
      match GoType.decEq e f with
      | isTrue h2 => isTrue (by rw [h, h2])
      | isFalse h2 => isFalse (fun h3 => by cases h3; exact h2 rfl)
    else isFalse (fun h3 => by cases h3; exact h rfl)
  | .basic _, .struct _ => isFalse (fun h => by cases h)
  | .basic _, .array _ _ => isFalse (fun h => by cases h)
  | .struct _, .basic _ => isFalse (fun h => by cases h)
  | .struct _, .array _ _ => isFalse (fun h => by cases h)
  | .array _ _, .basic _ => isFalse (fun h => by cases h)
  | .array _ _, .struct _ => isFalse (fun h => by cases h)
/-- Equality of lists of types is decidable. -/
def GoType.decEqList : (as bs : List GoType) → Decidable (as = bs)
  | [], [] => isTrue rfl
  | [], _ :: _ => isFalse (fun h => by cases h)
  | _ :: _, [] => isFalse (fun h => by cases h)
  | t :: ts, u :: us =>
    match GoType.decEq t u with
    | isTrue h =>
      match GoType.decEqList ts us with
      | isTrue h2 => isTrue (by rw [h, h2])
      | isFalse h2 => isFalse (fun h3 => by cases h3; exact h2 rfl)
    | isFalse h => isFalse (fun h3 => by cases h3; exact h rfl)
end

instance : DecidableEq GoType := GoType.decEq

/-- A byte. -/
abbrev Byte := Fin 256

/-- The read side of an open file: the bytes after the cursor. -/
abbrev Stream := List Byte

/-- A `reflect.Value`, together with its Go type.

* `integer k v` is the value `v` of the integer type of kind `k`;
* `float k bits` is the IEEE-754 value of the floating-point type of kind `k`
  whose bit pattern is `bits`;
* `zero t` is the zero value of a type `t` that has no other representation
  here (complex numbers, channels, strings and so on);
* `struct t fields` and `array t elems` are values of the struct or array type
  `t`. -/
inductive Value
  | bool (b : Bool)
  | integer (k : Kind) (v : Int)
  | float (k : Kind) (bits : Nat)
  | zero (t : GoType)
  | struct (t : GoType) (fields : List Value)
  | array (t : GoType) (elems : List Value)
  deriving Repr

/-- The result of `reflect.Value.Type`. -/
def Value.goType : Value → GoType
  | .bool _ => .basic .Bool
  | .integer k _ => .basic k
  | .float k _ => .basic k
  | .zero t => t
  | .struct t _ => t
  | .array t _ => t

mutual
/-- The zero value of a type: what `reflect.New(typ)` points to. -/
def zeroValue : GoType → Value
  | .basic .Bool => .bool false
  | .basic .Int => .integer .Int 0
  | .basic .Int8 => .integer .Int8 0
  | .basic .Int16 => .integer .Int16 0
  | .basic .Int32 => .integer .Int32 0
  | .basic .Int64 => .integer .Int64 0
  | .basic .Uint => .integer .Uint 0
  | .basic .Uint8 => .integer .Uint8 0
  | .basic .Uint16 => .integer .Uint16 0
  | .basic .Uint32 => .integer .Uint32 0
  | .basic .Uint64 => .integer .Uint64 0
  | .basic .Uintptr => .integer .Uintptr 0
  | .basic .Float32 => .float .Float32 0
  | .basic .Float64 => .float .Float64 0
  | .basic k => .zero (.basic k)
  | .struct fs => .struct (.struct fs) (zeroValues fs)
  | .array n e => .array (.array n e) (List.replicate n (zeroValue e))
/-- The zero values of the fields of a struct type. -/
def zeroValues : List GoType → List Value
  | [] => []
  | t :: ts => zeroValue t :: zeroValues ts
end

/-! ## Results -/

/-- The errors the parser creates with `errors.New`. -/
inductive ParseError
  | invalidField
  | variadicField
  | assertionFailed
  | notLongEnough
  | typeError
  deriving DecidableEq, Repr

/-- The text of each error. -/
def ParseError.message : ParseError → String
  | .invalidField => "struct field is not valid"
  | .variadicField => "struct field is variadic, unable to parse"
  | .assertionFailed => "type assertion of Value failed"
  | .notLongEnough => "file content not long enough"
  | .typeError => "type error"

/-- What a call produces: a value with a nil error, a non-nil error (the value
returned next to it is a placeholder, `nil` or `reflect.ValueOf(0)`, and holds
nothing decoded), or a run-time panic. -/
inductive Result (α : Type)
  | ok (v : α)
  | error (e : ParseError)
  | panic
  deriving Repr

/-! ## The endian selector -/

/-- The constant `LITTLE_ENDIAN`. -/
def LITTLE_ENDIAN : Nat := 0

/-- The constant `BIG_ENDIAN`. -/
def BIG_ENDIAN : Nat := 1

/-! ## Package `encoding/binary` -/

/-- The number whose base-256 digits are the given bytes, most significant
first. -/
def beNat (b : List Byte) : Nat :=
  b.foldl (fun acc x => acc * 256 + x.val) 0

/-- The number whose base-256 digits are the given bytes, least significant
first. -/
def leNat : List Byte → Nat
  | [] => 0
  | x :: rest => x.val + 256 * leNat rest

/-- The function `binary.BigEndian.Uint16`: the first two bytes, most
significant first; an index out of range (`none`) on a shorter slice. -/
def BigEndian.Uint16 (b : List Byte) : Option Nat :=
  if 2 ≤ b.length then some (beNat (b.take 2)) else none

/-- The function `binary.BigEndian.Uint32`. -/
def BigEndian.Uint32 (b : List Byte) : Option Nat :=
  if 4 ≤ b.length then some (beNat (b.take 4)) else none

/-- The function `binary.BigEndian.Uint64`. -/
def BigEndian.Uint64 (b : List Byte) : Option Nat :=
  if 8 ≤ b.length then some (beNat (b.take 8)) else none

/-- The function `binary.LittleEndian.Uint16`: the first two bytes, least
significant first; an index out of range (`none`) on a shorter slice. -/
def LittleEndian.Uint16 (b : List Byte) : Option Nat :=
  if 2 ≤ b.length then some (leNat (b.take 2)) else none

/-- The function `binary.LittleEndian.Uint32`. -/
def LittleEndian.Uint32 (b : List Byte) : Option Nat :=
  if 4 ≤ b.length then some (leNat (b.take 4)) else none

/-- The function `binary.LittleEndian.Uint64`. -/
def LittleEndian.Uint64 (b : List Byte) : Option Nat :=
  if 8 ≤ b.length then some (leNat (b.take 8)) else none

/-! ## Go conversions between numeric types -/

/-- The conversion of an unsigned `w`-bit integer to the signed type of the
same width (`int8(x)`, `int16(x)`, ...): the bits are kept and read as two's
complement. -/
def toSigned (w : Nat) (u : Nat) : Int :=
  if u % 2 ^ w < 2 ^ (w - 1) then ((u % 2 ^ w : Nat) : Int)
  else ((u % 2 ^ w : Nat) : Int) - ((2 ^ w : Nat) : Int)

/-- The conversion to an unsigned type of `w` bits (`uint(x)`, `uintptr(x)`,
`uint8(x)`): the low `w` bits. -/
def toUnsigned (w : Nat) (u : Nat) : Int :=
  ((u % 2 ^ w : Nat) : Int)

/-- The number of binary digits of `n`, for `n < 2 ^ fuel`. -/
def bitLength : Nat → Nat → Nat
  | 0, _ => 0
  | fuel + 1, n => if n = 0 then 0 else bitLength fuel (n / 2) + 1

/-- The conversion of an unsigned integer below `2 ^ 64` to a floating-point
type (`float32(x)`, `float64(x)`): the float nearest to the integer, ties to
even, given by its IEEE-754 bit pattern.  `p` is the number of stored
significand bits and `bias` the exponent bias (23 and 127 for `float32`, 52
and 1023 for `float64`). -/
def floatOfNat (p bias n : Nat) : Nat :=
  if n = 0 then 0
  else
    let e := bitLength 64 n - 1
    if e ≤ p then (e + bias) * 2 ^ p + (n * 2 ^ (p - e) - 2 ^ p)
    else
      let sh := e - p
      let q := n / 2 ^ sh
      let r := n % 2 ^ sh
      let half := 2 ^ (sh - 1)
      let q1 := if half < r ∨ (r = half ∧ q % 2 = 1) then q + 1 else q
      (e + bias) * 2 ^ p + (q1 - 2 ^ p)

/-- The bit pattern of `float32(x)` for a `uint32` value `x`. -/
def float32OfNat (n : Nat) : Nat := floatOfNat 23 127 n

/-- The bit pattern of `float64(x)` for a `uint64` value `x`. -/
def float64OfNat (n : Nat) : Nat := floatOfNat 52 1023 n

/-- The rational number denoted by the bit pattern of a finite IEEE-754 value
with `p` stored significand bits, `w` exponent bits and exponent bias
`bias`. -/
def floatValue (p w bias bits : Nat) : ℚ :=
  let frac := bits % 2 ^ p
  let ex := (bits / 2 ^ p) % 2 ^ w
  let sign : ℚ := if bits / 2 ^ (p + w) % 2 = 1 then -1 else 1
  if ex = 0 then sign * (frac : ℚ) * (2 : ℚ) ^ ((1 : Int) - bias - p)
  else sign * ((2 ^ p + frac : Nat) : ℚ) * (2 : ℚ) ^ ((ex : Int) - bias - p)

/-- The rational number denoted by a finite `float32` bit pattern. -/
def float32Value (bits : Nat) : ℚ := floatValue 23 8 127 bits

/-- The rational number denoted by a finite `float64` bit pattern. -/
def float64Value (bits : Nat) : ℚ := floatValue 52 11 1023 bits

/-! ## The byte-to-value conversion -/

/-- The outcome of using the result of a `binary` read: the value built from
it, or a panic when the read indexed past the end of the slice. -/
def Result.ofRead (r : Option Nat) (f : Nat → Value) : Result Value :=
  match r with
  | some u => .ok (f u)
  | none => .panic

/-- The function `convToInvariadicValue` of `parser.go`: one case for each
kind of the `switch`, and the `default` case last. -/
def convToInvariadicValue (buf : List Byte) (kind : Kind) (end_ : Nat) : Result Value :=
  match kind with
  | .Bool =>
    match buf.head? with
    | none => .panic
    | some b => if b ≠ 0 then .ok (.bool true) else .ok (.bool false)
  | .Int =>
    if end_ = LITTLE_ENDIAN then
      Result.ofRead (LittleEndian.Uint64 buf) (fun u => .integer .Uint64 u)
    else
      Result.ofRead (BigEndian.Uint64 buf) (fun u => .integer .Uint64 u)
  | .Int8 =>
    match buf.head? with
    | none => .panic
    | some b => .ok (.integer .Int8 (toSigned 8 b.val))
  | .Int16 =>
    if end_ = LITTLE_ENDIAN then
      Result.ofRead (LittleEndian.Uint16 buf) (fun u => .integer .Int16 (toSigned 16 u))
    else
      Result.ofRead (BigEndian.Uint16 buf) (fun u => .integer .Int16 (toSigned 16 u))
  | .Int32 =>
    if end_ = LITTLE_ENDIAN then
      Result.ofRead (LittleEndian.Uint32 buf) (fun u => .integer .Int32 (toSigned 32 u))
    else
      Result.ofRead (BigEndian.Uint32 buf) (fun u => .integer .Int32 (toSigned 32 u))
  | .Int64 =>
    if end_ = LITTLE_ENDIAN then
      Result.ofRead (LittleEndian.Uint64 buf) (fun u => .integer .Int64 (toSigned 64 u))
    else
      Result.ofRead (BigEndian.Uint64 buf) (fun u => .integer .Int64 (toSigned 64 u))
  | .Uint =>
    if end_ = LITTLE_ENDIAN then
      Result.ofRead (LittleEndian.Uint64 buf) (fun u => .integer .Uint (toUnsigned 64 u))
    else
      Result.ofRead (BigEndian.Uint64 buf) (fun u => .integer .Uint (toUnsigned 64 u))
  | .Uint8 =>
    match buf.head? with
    | none => .panic
    | some b => .ok (.integer .Uint8 (toUnsigned 8 b.val))
  | .Uint16 =>
    if end_ = LITTLE_ENDIAN then
      Result.ofRead (LittleEndian.Uint16 buf) (fun u => .integer .Uint16 u)
    else
      Result.ofRead (BigEndian.Uint16 buf) (fun u => .integer .Uint16 u)
  | .Uint32 =>
    if end_ = LITTLE_ENDIAN then
      Result.ofRead (LittleEndian.Uint32 buf) (fun u => .integer .Uint32 u)
    else
      Result.ofRead (BigEndian.Uint32 buf) (fun u => .integer .Uint32 u)
  | .Uint64 =>
    if end_ = LITTLE_ENDIAN then
      Result.ofRead (LittleEndian.Uint64 buf) (fun u => .integer .Uint64 u)
    else
      Result.ofRead (BigEndian.Uint64 buf) (fun u => .integer .Uint64 u)
  | .Uintptr =>
    if end_ = LITTLE_ENDIAN then
      Result.ofRead (LittleEndian.Uint64 buf) (fun u => .integer .Uintptr (toUnsigned 64 u))
    else
      Result.ofRead (BigEndian.Uint64 buf) (fun u => .integer .Uintptr (toUnsigned 64 u))
  | .Float32 =>
    if end_ = LITTLE_ENDIAN then
      Result.ofRead (LittleEndian.Uint32 buf) (fun u => .float .Float32 (float32OfNat u))
    else
      Result.ofRead (BigEndian.Uint32 buf) (fun u => .float .Float32 (float32OfNat u))
  | .Float64 =>
    if end_ = LITTLE_ENDIAN then
      Result.ofRead (LittleEndian.Uint64 buf) (fun u => .float .Float64 (float64OfNat u))
    else
      Result.ofRead (BigEndian.Uint64 buf) (fun u => .float .Float64 (float64OfNat u))
  | _ => .error .typeError

/-! ## The stream -/

/-- The method `(*os.File).Read` on a regular file: the leading bytes of `buf`
are overwritten with as many of the remaining bytes as fit, the rest of `buf`
is left as it was, and the cursor moves past the bytes copied.  The number of
bytes read and the error that `Read` returns are dropped, as the caller drops
them. -/
def Read (stream : Stream) (buf : List Byte) : List Byte × Stream :=
  (stream.take buf.length ++ buf.drop (stream.take buf.length).length,
   stream.drop buf.length)

/-! ## The walkers -/

/-- The statement `arr.Index(i).Set(x)`: `some` of the updated array, or
`none` when reflection panics, which it does when `arr` is not an array, when
`i` is not below its length, or when the type of `x` is not the element
type. -/
def Value.setIndex (arr : Value) (i : Nat) (x : Value) : Option Value :=
  match arr with
  | .array (.array n e) elems =>
    if i < n ∧ x.goType = e then some (.array (.array n e) (elems.set i x)) else none
  | _ => none

/-- The loop of `ParseArrayFromBinaryStream`, from index `i` with `count`
iterations left.  `step stream arr` stands for the call
`doParseValue(stream, elemType, arr, end)`.  When the element type is itself
an array, that call works on the very object `arr` and returns it, so the
array indexed afterwards is the returned one (`elemIsArray`). -/
def arrayLoop (step : Stream → Value → Result Value × Stream) (elemIsArray : Bool) :
    Nat → Nat → Stream → Value → Result Value × Stream
  | 0, _, stream, arr => (.ok arr, stream)
  | count + 1, i, stream, arr =>
    match step stream arr with
    | (.ok parsed, rest) =>
      match Value.setIndex (if elemIsArray then parsed else arr) i parsed with
      | some arr1 => arrayLoop step elemIsArray count (i + 1) rest arr1
      | none => (.panic, rest)
    | (.error e, rest) => (.error e, rest)
    | (.panic, rest) => (.panic, rest)

mutual
/-- The function `doParseValue` of `parser.go`.  The `switch` is followed case
by case; the struct case runs the loop of `ParseStructFromBinaryStream` and the
array case the loop of `ParseArrayFromBinaryStream`. -/
def doParseValue (stream : Stream) (typ : GoType) (val : Value) (end_ : Nat) :
    Result Value × Stream :=
  let kind := typ.Kind
  if kind = .Invalid then (.error .invalidField, stream)
  else if Kind.Chan.toNat ≤ kind.toNat ∧ kind ≠ .Struct then
    (.error .variadicField, stream)
  else
    match typ with
    | .struct fields =>
      match structLoop stream fields end_ with
      | (.ok vals, rest) => (.ok (.struct (.struct fields) vals), rest)
      | (.error e, rest) => (.error e, rest)
      | (.panic, rest) => (.panic, rest)
    | .array len elem =>
      arrayLoop (fun s v => doParseValue s elem v end_) (decide (elem.Kind = .Array))
        len 0 stream val
    | .basic _ =>
      let numberSize := kind.Size
      let buf := List.replicate numberSize (0 : Byte)
      let (buf1, rest) := Read stream buf
      if buf1.length < numberSize then (.error .notLongEnough, rest)
      else
        match convToInvariadicValue buf1 kind end_ with
        | .ok parsed => (.ok parsed, rest)
        | .error e => (.error e, rest)
        | .panic => (.panic, rest)
/-- The loop of `ParseStructFromBinaryStream` over the fields that remain:
each field is decoded with `doParseValue` (which is handed the field, still
holding its zero value) and stored with `field.Set(parsed)`, which panics
unless `parsed` has the type of the field.  The result lists the stored
values in declaration order. -/
def structLoop (stream : Stream) (fields : List GoType) (end_ : Nat) :
    Result (List Value) × Stream :=
  match fields with
  | [] => (.ok [], stream)
  | t :: ts =>
    match doParseValue stream t (zeroValue t) end_ with
    | (.ok parsed, rest) =>
      if parsed.goType = t then
        match structLoop rest ts end_ with
        | (.ok vals, rest1) => (.ok (parsed :: vals), rest1)
        | (.error e, rest1) => (.error e, rest1)
        | (.panic, rest1) => (.panic, rest1)
      else (.panic, rest)
    | (.error e, rest) => (.error e, rest)
    | (.panic, rest) => (.panic, rest)
end

/-- The function `ParseStructFromBinaryStream` of `parser.go`.  On a type
that is not a struct, `NumField` panics. -/
def ParseStructFromBinaryStream (stream : Stream) (typ : GoType) (end_ : Nat) :
    Result Value × Stream :=
  match typ with
  | .struct fields =>
    match structLoop stream fields end_ with
    | (.ok vals, rest) => (.ok (.struct (.struct fields) vals), rest)
    | (.error e, rest) => (.error e, rest)
    | (.panic, rest) => (.panic, rest)
  | _ => (.panic, stream)

/-- The function `ParseArrayFromBinaryStream` of `parser.go`.  On a type that
is not an array, `Len` panics. -/
def ParseArrayFromBinaryStream (stream : Stream) (typ : GoType) (arr : Value) (end_ : Nat) :
    Result Value × Stream :=
  match typ with
  | .array len elem =>
    arrayLoop (fun s v => doParseValue s elem v end_) (decide (elem.Kind = .Array))
      len 0 stream arr
  | _ => (.panic, stream)

/-! ## Definitions used to state the specification -/

/-- The `w` low base-256 digits of `u`, least significant first. -/
def leBytes : Nat → Nat → List Byte
  | 0, _ => []
  | w + 1, u => Fin.ofNat (u % 256) :: leBytes w (u / 256)

/-- The fixed-width encoding of the integer `v` on `w` bytes in the given byte
order: the base-256 digits of `v` modulo `2 ^ (8 * w)` (two's complement for a
negative `v`), least significant first for `LITTLE_ENDIAN` and most
significant first otherwise. -/
def encodeInt (w : Nat) (end_ : Nat) (v : Int) : List Byte :=
  if end_ = LITTLE_ENDIAN then leBytes w (v % (2 ^ (8 * w) : Nat)).toNat
  else (leBytes w (v % (2 ^ (8 * w) : Nat)).toNat).reverse

/-- The unsigned read of a byte run in the given byte order: the first byte is
the least significant one for `LITTLE_ENDIAN` and the most significant one
otherwise. -/
def unsignedRead (buf : List Byte) (end_ : Nat) : Nat :=
  if end_ = LITTLE_ENDIAN then leNat buf else beNat buf

/-- The two's-complement reading of an unsigned `w`-byte number `u`: `u` when
`u < 2 ^ (8 * w - 1)` and `u - 2 ^ (8 * w)` otherwise. -/
def twosComplement (w : Nat) (u : Nat) : Int :=
  if u < 2 ^ (8 * w - 1) then (u : Int) else (u : Int) - ((2 ^ (8 * w) : Nat) : Int)

/-- The primitive kinds the specification lists as supported. -/
def supportedKinds : List Kind :=
  [.Bool, .Int, .Int8, .Int16, .Int32, .Int64, .Uint, .Uint8, .Uint16, .Uint32,
   .Uint64, .Uintptr, .Float32, .Float64]

/-- The signed integer kinds of fixed width. -/
def sizedSignedKinds : List Kind := [.Int8, .Int16, .Int32, .Int64]

/-- The unsigned integer kinds. -/
def unsignedKinds : List Kind := [.Uint, .Uint8, .Uint16, .Uint32, .Uint64, .Uintptr]

/-- The supported primitive kinds for which `convToInvariadicValue` returns a
value of the kind asked for: all of them except `Int`. -/
def faithfulKinds : List Kind :=
  [.Bool, .Int8, .Int16, .Int32, .Int64, .Uint, .Uint8, .Uint16, .Uint32,
   .Uint64, .Uintptr, .Float32, .Float64]

/-- The integer `v` lies in the range of the integer type of kind `k`. -/
def Kind.inRange (k : Kind) (v : ℤ) : Prop :=
  match k with
  | .Int8 => -2 ^ 7 ≤ v ∧ v < 2 ^ 7
  | .Int16 => -2 ^ 15 ≤ v ∧ v < 2 ^ 15
  | .Int32 => -2 ^ 31 ≤ v ∧ v < 2 ^ 31
  | .Int64 => -2 ^ 63 ≤ v ∧ v < 2 ^ 63
  | .Int => -2 ^ 63 ≤ v ∧ v < 2 ^ 63
  | .Uint8 => 0 ≤ v ∧ v < 2 ^ 8
  | .Uint16 => 0 ≤ v ∧ v < 2 ^ 16
  | .Uint32 => 0 ≤ v ∧ v < 2 ^ 32
  | .Uint64 => 0 ≤ v ∧ v < 2 ^ 64
  | .Uint => 0 ≤ v ∧ v < 2 ^ 64
  | .Uintptr => 0 ≤ v ∧ v < 2 ^ 64
  | _ => False

mutual
/-- The size of a descriptor as the specification defines it: the fixed width
of a primitive, the sum of the sizes of the fields of a struct, the length of
an array times the size of its element. -/
def byteSize : GoType → Nat
  | .basic k => k.Size
  | .struct fs => byteSizes fs
  | .array n e => n * byteSize e
/-- The sum of the sizes of a list of descriptors. -/
def byteSizes : List GoType → Nat
  | [] => 0
  | t :: ts => byteSize t + byteSizes ts
end

mutual
/-- A descriptor built from supported primitives, structs and fixed-length
arrays. -/
def Supported : GoType → Prop
  | .basic k => k ∈ supportedKinds
  | .struct fs => SupportedAll fs
  | .array _ e => Supported e
/-- Every descriptor of the list is `Supported`. -/
def SupportedAll : List GoType → Prop
  | [] => True
  | t :: ts => Supported t ∧ SupportedAll ts
end

mutual
/-- A supported descriptor in which no `int` occurs and no array has an array
as its element type. -/
def Regular : GoType → Prop
  | .basic k => k ∈ faithfulKinds
  | .struct fs => RegularAll fs
  | .array _ e => Regular e ∧ e.Kind ≠ .Array
/-- Every descriptor of the list is `Regular`. -/
def RegularAll : List GoType → Prop
  | [] => True
  | t :: ts => Regular t ∧ RegularAll ts
end

/-- The byte offset of field `i` of a struct whose fields are the basic types
of the given kinds: the sum of the widths of the fields declared before
it. -/
def fieldOffset (ks : List Kind) (i : Nat) : Nat :=
  ((ks.take i).map Kind.Size).sum

/-- What the decode of a regular descriptor does: it returns a value of the
descriptor's type and leaves the stream `byteSize` bytes further. -/
def DecodesRegular (e : Nat) (t : GoType) : Prop :=
  Regular t → ∀ (s : Stream) (val : Value),
    (∀ n el, t = .array n el → ∃ elems, val = .array t elems) →
    byteSize t ≤ s.length →
    ∃ v, doParseValue s t val e = (.ok v, s.drop (byteSize t)) ∧ v.goType = t

/-- The error "file content not long enough" is never the outcome of the
decode of a descriptor. -/
def NeverNotLongEnough (e : Nat) (t : GoType) : Prop :=
  ∀ (s : Stream) (val : Value) (err : ParseError) (s1 : Stream),
    doParseValue s t val e = (.error err, s1) → err ≠ .notLongEnough

/-- The numeric kinds that are more than one byte wide. -/
def multiByteKinds : List Kind :=
  [.Int, .Int16, .Int32, .Int64, .Uint, .Uint16, .Uint32, .Uint64, .Uintptr,
   .Float32, .Float64]

/-- The kinds that are one byte wide. -/
def singleByteKinds : List Kind := [.Bool, .Int8, .Uint8]

/-- Sequencing of two stream operations: the second runs on the value and the
stream the first one leaves; an error or a panic of the first is the
outcome, with the stream where it stopped. -/
def andThen {α β : Type} (r : Result α × Stream) (f : α → Stream → Result β × Stream) :
    Result β × Stream :=
  match r with
  | (.ok v, rest) => f v rest
  | (.error e, rest) => (.error e, rest)
  | (.panic, rest) => (.panic, rest)

/-- The field values of a struct value. -/
def Value.fields : Value → List Value
  | .struct _ fs => fs
  | _ => []

mutual
/-- The fields of a type once every struct in field position is replaced by
its own fields, recursively and in declaration order.  A type that is not a
struct is a single field. -/
def flattenType : GoType → List GoType
  | .basic k => [.basic k]
  | .struct fs => flattenFields fs
  | .array n e => [.array n e]
/-- The flattened fields of a list of field types. -/
def flattenFields : List GoType → List GoType
  | [] => []
  | t :: ts => flattenType t ++ flattenFields ts
end

mutual
/-- The leaf values of a value: the values of the fields of a struct value,
taken recursively through struct-valued fields, in declaration order.  A value
that is not a struct is its own single leaf. -/
def Value.leaves : Value → List Value
  | .bool b => [.bool b]
  | .integer k v => [.integer k v]
  | .float k bits => [.float k bits]
  | .zero t => [.zero t]
  | .struct _ fs => leavesOf fs
  | .array t elems => [.array t elems]
/-- The leaf values of a list of values. -/
def leavesOf : List Value → List Value
  | [] => []
  | v :: vs => v.leaves ++ leavesOf vs
end

/-- The outcome of a struct decode with the decoded struct replaced by its
leaf values. -/
def decodedLeaves (r : Result Value × Stream) : Result (List Value) × Stream :=
  andThen r (fun v rest => (.ok v.leaves, rest))

/-- The outcome of a field loop with the field values replaced by their leaf
values. -/
def loopLeaves (r : Result (List Value) × Stream) : Result (List Value) × Stream :=
  andThen r (fun vals rest => (.ok (leavesOf vals), rest))

/-! ## Byte order arithmetic -/

theorem leBytes_length (w u : Nat) : (leBytes w u).length = w := by
  induction w generalizing u with
  | zero => rfl
  | succ w ih => simp [leBytes, ih]

theorem leNat_leBytes (w u : Nat) : leNat (leBytes w u) = u % 256 ^ w := by
  induction w generalizing u with
  | zero => simp [leBytes, leNat, Nat.mod_one]
  | succ w ih =>
    simp only [leBytes, leNat, ih]
    have h1 : (Fin.ofNat (u % 256) : Byte).val = u % 256 := by
      simp [Fin.ofNat]
    rw [h1, pow_succ, Nat.mul_comm (256 ^ w) 256, Nat.mod_mul]

theorem beNat_foldl (acc : Nat) (b : List Byte) :
    b.foldl (fun a x => a * 256 + x.val) acc = acc * 256 ^ b.length + beNat b := by
  induction b generalizing acc with
  | nil => simp [beNat]
  | cons x rest ih =>
    simp only [List.foldl_cons, beNat, List.length_cons]
    rw [ih, ih (0 * 256 + x.val)]
    ring

theorem beNat_append (a b : List Byte) :
    beNat (a ++ b) = beNat a * 256 ^ b.length + beNat b := by
  unfold beNat
  rw [List.foldl_append, beNat_foldl]
  rfl

theorem beNat_reverse (b : List Byte) : beNat b.reverse = leNat b := by
  induction b with
  | nil => rfl
  | cons x rest ih =>
    rw [List.reverse_cons, beNat_append, ih]
    simp [leNat, beNat]
    ring

theorem leNat_lt (b : List Byte) : leNat b < 256 ^ b.length := by
  induction b with
  | nil => simp [leNat]
  | cons x rest ih =>
    simp only [leNat, List.length_cons, pow_succ]
    have := x.isLt
    omega

theorem beNat_lt (b : List Byte) : beNat b < 256 ^ b.length := by
  have := leNat_lt b.reverse
  rw [← beNat_reverse, List.reverse_reverse, List.length_reverse] at this
  exact this

theorem beNat_eight (b0 b1 b2 b3 b4 b5 b6 b7 : Byte) :
    beNat [b0, b1, b2, b3, b4, b5, b6, b7] =
      b0.val * 256 ^ 7 + b1.val * 256 ^ 6 + b2.val * 256 ^ 5 + b3.val * 256 ^ 4 +
      b4.val * 256 ^ 3 + b5.val * 256 ^ 2 + b6.val * 256 + b7.val := by
  simp [beNat]
  ring

/-! ## The stream -/

theorem Read_length (stream : Stream) (buf : List Byte) :
    (Read stream buf).1.length = buf.length := by
  simp [Read]

theorem Read_rest (stream : Stream) (buf : List Byte) :
    (Read stream buf).2 = stream.drop buf.length := rfl

theorem Read_of_le (stream : Stream) (n : Nat) (h : n ≤ stream.length) :
    Read stream (List.replicate n (0 : Byte)) = (stream.take n, stream.drop n) := by
  simp [Read, Nat.min_eq_left h]

/-! ## The byte-to-value conversion -/

/-- The default branch of `doParseValue`: for a basic type whose kind is neither
`Invalid` nor at or above `Chan`, the length test never fires and the outcome
is that of the conversion of the buffer `Read` has filled, with the stream
`Size` bytes further (or at its end). -/
theorem doParseValue_basic (s : Stream) (k : Kind) (val : Value) (e : Nat)
    (h1 : k ≠ .Invalid) (h2 : k.toNat < Kind.Chan.toNat) :
    doParseValue s (.basic k) val e =
      match convToInvariadicValue (Read s (List.replicate k.Size (0 : Byte))).1 k e with
      | .ok parsed => (.ok parsed, s.drop k.Size)
      | .error er => (.error er, s.drop k.Size)
      | .panic => (.panic, s.drop k.Size) := by
  have h3 : ¬ (Kind.Chan.toNat ≤ k.toNat ∧ k ≠ .Struct) := by omega
  have h4 : ¬ ((Read s (List.replicate k.Size (0 : Byte))).1.length < k.Size) := by
    rw [Read_length]; simp
  rw [doParseValue]
  simp only [GoType.Kind, h1, h3, if_false]
  simp only [h4, if_false, Read_rest, List.length_replicate]

theorem read_exact (buf : List Byte) (n : Nat) (h : buf.length = n) : buf.take n = buf := by
  rw [← h]; exact List.take_length buf

theorem toSigned_eq (w : Nat) (u : Nat) (hu : u < 2 ^ (8 * w)) :
    toSigned (8 * w) u = twosComplement w u := by
  unfold toSigned twosComplement
  rw [Nat.mod_eq_of_lt hu]

theorem head?_of_length_one (buf : List Byte) (h : buf.length = 1) :
    ∃ b, buf = [b] := by
  match buf, h with
  | [b], _ => exact ⟨b, rfl⟩

/-- For `int8`, `int16`, `int32` and `int64`, either byte order and a byte run
of the width of the kind, the decoded scalar is of that kind and equals the
two's-complement reading of the unsigned read of the run. -/
theorem convToInvariadicValue_signed (k : Kind) (hk : k ∈ sizedSignedKinds)
    (buf : List Byte) (hlen : buf.length = k.Size) (e : Nat) :
    convToInvariadicValue buf k e =
      .ok (.integer k (twosComplement k.Size (unsignedRead buf e))) := by
  have hlt := leNat_lt buf
  have hlt2 := beNat_lt buf
  simp only [sizedSignedKinds, List.mem_cons, List.mem_singleton, List.not_mem_nil, or_false] at hk
  rcases hk with rfl | rfl | rfl | rfl
  · obtain ⟨b, rfl⟩ := head?_of_length_one buf hlen
    have hb := b.isLt
    simp only [convToInvariadicValue, List.head?, unsignedRead, leNat, beNat, List.foldl, Kind.Size]
    rw [show (8 : Nat) = 8 * 1 from rfl, toSigned_eq 1 _ (by omega)]
    split <;> simp
  all_goals
    simp only [Kind.Size] at hlen
    rw [hlen] at hlt hlt2
    simp only [convToInvariadicValue, unsignedRead, LittleEndian.Uint16, BigEndian.Uint16,
      LittleEndian.Uint32, BigEndian.Uint32, LittleEndian.Uint64, BigEndian.Uint64,
      hlen, le_refl, if_true, read_exact buf _ hlen, Result.ofRead, Kind.Size]
    split
    · first
        | rw [show (16 : Nat) = 8 * 2 from rfl, toSigned_eq 2 _ (by norm_num at hlt ⊢; omega)]
        | rw [show (32 : Nat) = 8 * 4 from rfl, toSigned_eq 4 _ (by norm_num at hlt ⊢; omega)]
        | rw [show (64 : Nat) = 8 * 8 from rfl, toSigned_eq 8 _ (by norm_num at hlt ⊢; omega)]
    · first
        | rw [show (16 : Nat) = 8 * 2 from rfl, toSigned_eq 2 _ (by norm_num at hlt2 ⊢; omega)]
        | rw [show (32 : Nat) = 8 * 4 from rfl, toSigned_eq 4 _ (by norm_num at hlt2 ⊢; omega)]
        | rw [show (64 : Nat) = 8 * 8 from rfl, toSigned_eq 8 _ (by norm_num at hlt2 ⊢; omega)]
/-- For the unsigned integer kinds, either byte order and a byte run of the
width of the kind, the decoded scalar is of that kind and equals the unsigned
read of the run. -/
theorem convToInvariadicValue_unsigned (k : Kind) (hk : k ∈ unsignedKinds)
    (buf : List Byte) (hlen : buf.length = k.Size) (e : Nat) :
    convToInvariadicValue buf k e = .ok (.integer k (unsignedRead buf e)) := by
  have hlt := leNat_lt buf
  have hlt2 := beNat_lt buf
  simp only [unsignedKinds, List.mem_cons, List.mem_singleton, List.not_mem_nil, or_false] at hk
  rcases hk with rfl | rfl | rfl | rfl | rfl | rfl
  case inr.inl =>
    obtain ⟨b, rfl⟩ := head?_of_length_one buf hlen
    have hb := b.isLt
    simp only [convToInvariadicValue, List.head?, unsignedRead, leNat, beNat, List.foldl,
      toUnsigned]
    rw [Nat.mod_eq_of_lt (by omega)]
    split <;> simp
  all_goals
    simp only [Kind.Size] at hlen
    rw [hlen] at hlt hlt2
    simp only [convToInvariadicValue, unsignedRead, LittleEndian.Uint16, BigEndian.Uint16,
      LittleEndian.Uint32, BigEndian.Uint32, LittleEndian.Uint64, BigEndian.Uint64,
      hlen, le_refl, if_true, read_exact buf _ hlen, Result.ofRead, toUnsigned]
    try (rw [Nat.mod_eq_of_lt (by norm_num at hlt ⊢; omega),
      Nat.mod_eq_of_lt (by norm_num at hlt2 ⊢; omega)])
    split <;> rfl

theorem encodeInt_length (w e : Nat) (v : Int) : (encodeInt w e v).length = w := by
  unfold encodeInt
  split <;> simp [leBytes_length]

theorem unsignedRead_encodeInt (w e : Nat) (v : Int) :
    unsignedRead (encodeInt w e v) e = (v % (2 ^ (8 * w) : Nat)).toNat := by
  have h : (v % (2 ^ (8 * w) : Nat)).toNat % 256 ^ w = (v % (2 ^ (8 * w) : Nat)).toNat := by
    apply Nat.mod_eq_of_lt
    have h1 : (256 : Nat) ^ w = 2 ^ (8 * w) := by
      rw [pow_mul]; norm_num
    rw [h1]
    have h2 : (0 : Int) < ((2 ^ (8 * w) : Nat) : Int) := by positivity
    have h3 := Int.emod_lt_of_pos v h2
    have h4 := Int.emod_nonneg v (ne_of_gt h2)
    omega
  unfold unsignedRead encodeInt
  split
  · rw [leNat_leBytes, h]
  · rw [beNat_reverse, leNat_leBytes, h]

/-- Round trip: for every integer kind other than `Int`, either byte order and
every value in the range of the kind, decoding the fixed-width encoding of the
value gives a scalar of that kind equal to the value. -/
theorem convToInvariadicValue_encodeInt (k : Kind) (hk : k ∈ sizedSignedKinds ++ unsignedKinds)
    (e : Nat) (v : Int) (hv : k.inRange v) :
    convToInvariadicValue (encodeInt k.Size e v) k e = .ok (.integer k v) := by
  rw [List.mem_append] at hk
  rcases hk with hk | hk
  · rw [convToInvariadicValue_signed k hk _ (encodeInt_length _ _ _), unsignedRead_encodeInt]
    simp only [sizedSignedKinds, List.mem_cons, List.mem_singleton, List.not_mem_nil,
      or_false] at hk
    rcases hk with rfl | rfl | rfl | rfl <;>
    · simp only [Kind.inRange] at hv
      simp only [Kind.Size, twosComplement]
      norm_num at hv ⊢
      split <;> omega
  · rw [convToInvariadicValue_unsigned k hk _ (encodeInt_length _ _ _), unsignedRead_encodeInt]
    simp only [unsignedKinds, List.mem_cons, List.mem_singleton, List.not_mem_nil,
      or_false] at hk
    rcases hk with rfl | rfl | rfl | rfl | rfl | rfl <;>
    · simp only [Kind.inRange] at hv
      simp only [Kind.Size]
      norm_num at hv ⊢
      omega

/-! ## The walkers -/

/-- A type of kind chan, func, interface, map, pointer, slice or string is
rejected with the variadic error before the stream is touched. -/
theorem doParseValue_variadic_kinds (typ : GoType)
    (h : typ.Kind ∈ [Kind.Chan, Kind.Func, Kind.Interface, Kind.Map, Kind.Pointer, Kind.Slice,
      Kind.String])
    (stream : Stream) (val : Value) (end_ : Nat) :
    doParseValue stream typ val end_ = (.error .variadicField, stream) := by
  cases typ with
  | basic k =>
    simp only [GoType.Kind, List.mem_cons, List.mem_singleton, List.not_mem_nil, or_false] at h
    rcases h with rfl | rfl | rfl | rfl | rfl | rfl | rfl <;>
      simp [doParseValue, GoType.Kind, Kind.toNat]
  | struct fs => simp [GoType.Kind] at h
  | array n e => simp [GoType.Kind] at h

/-- If the fields `fs1` decode and the next field fails, the loop over
`fs1 ++ t :: fs2` stops with that error and that stream. -/
theorem structLoop_append_error (e : Nat) (fs1 : List GoType) :
    ∀ (s : Stream) (vals : List Value) (s1 : Stream) (t : GoType) (fs2 : List GoType)
      (err : ParseError) (s2 : Stream),
      structLoop s fs1 e = (.ok vals, s1) →
      doParseValue s1 t (zeroValue t) e = (.error err, s2) →
      structLoop s (fs1 ++ t :: fs2) e = (.error err, s2) := by
  induction fs1 with
  | nil =>
    intro s vals s1 t fs2 err s2 h1 h2
    rw [structLoop] at h1
    simp only [Prod.mk.injEq, Result.ok.injEq] at h1
    obtain ⟨-, rfl⟩ := h1
    rw [List.nil_append, structLoop, h2]
  | cons a fs1 ih =>
    intro s vals s1 t fs2 err s2 h1 h2
    rw [structLoop] at h1
    rw [List.cons_append, structLoop]
    rcases hd : doParseValue s a (zeroValue a) e with ⟨r, rest⟩
    rw [hd] at h1
    cases r with
    | ok parsed =>
      simp only at h1 ⊢
      by_cases ht : parsed.goType = a
      · simp only [ht, if_true] at h1 ⊢
        rcases hl : structLoop rest fs1 e with ⟨r2, rest2⟩
        rw [hl] at h1
        cases r2 with
        | ok vals2 =>
          simp only [Prod.mk.injEq, Result.ok.injEq] at h1
          obtain ⟨-, rfl⟩ := h1
          rw [ih rest vals2 rest2 t fs2 err s2 hl h2]
        | error e2 => simp at h1
        | panic => simp at h1
      · simp [ht] at h1
    | error e2 => simp at h1
    | panic => simp at h1

/-- The array loop over `c1 + c2` iterations is the loop over `c1` iterations
followed, when that one succeeds, by the loop over `c2` more. -/
theorem arrayLoop_add (step : Stream → Value → Result Value × Stream) (b : Bool)
    (c1 c2 : Nat) :
    ∀ (i : Nat) (s : Stream) (arr : Value),
      arrayLoop step b (c1 + c2) i s arr =
        match arrayLoop step b c1 i s arr with
        | (.ok arr1, s1) => arrayLoop step b c2 (i + c1) s1 arr1
        | (.error err, s1) => (.error err, s1)
        | (.panic, s1) => (.panic, s1) := by
  induction c1 with
  | zero => intro i s arr; simp [arrayLoop]
  | succ c1 ih =>
    intro i s arr
    rw [show c1 + 1 + c2 = (c1 + c2) + 1 by omega, arrayLoop, arrayLoop]
    rcases hd : step s arr with ⟨r, rest⟩
    cases r with
    | ok parsed =>
      simp only
      cases hset : Value.setIndex (if b = true then parsed else arr) i parsed with
      | none => simp
      | some arr1 =>
        simp only
        rw [ih (i + 1) rest arr1, show i + 1 + c1 = i + (c1 + 1) by omega]
    | error e2 => simp
    | panic => simp

/-- Induction on types, with the induction hypothesis for every field of a
struct. -/
theorem GoType.induct {P : GoType → Prop} (hb : ∀ k, P (.basic k))
    (hs : ∀ fs, (∀ t ∈ fs, P t) → P (.struct fs))
    (ha : ∀ n e, P e → P (.array n e)) : ∀ t, P t := by
  intro t
  exact GoType.rec (motive_1 := P) (motive_2 := fun fs => ∀ t ∈ fs, P t) hb
    (fun fs ih => hs fs ih) (fun n e ih => ha n e ih) (by simp)
    (fun head tail ih1 ih2 => by
      intro t ht
      simp only [List.mem_cons] at ht
      rcases ht with rfl | ht
      · exact ih1
      · exact ih2 t ht) t

theorem convToInvariadicValue_Bool (buf : List Byte) (hlen : buf.length = 1) (e : Nat) :
    ∃ b, buf = [b] ∧
      convToInvariadicValue buf .Bool e = .ok (.bool (decide (b ≠ 0))) := by
  obtain ⟨b, rfl⟩ := head?_of_length_one buf hlen
  refine ⟨b, rfl, ?_⟩
  simp only [convToInvariadicValue, List.head?]
  split <;> simp_all

/-- For `float32` and a run of four bytes the result is the float nearest to
the unsigned read of the run, taken as a number. -/
theorem convToInvariadicValue_Float32 (buf : List Byte) (hlen : buf.length = 4) (e : Nat) :
    convToInvariadicValue buf .Float32 e =
      .ok (.float .Float32 (float32OfNat (unsignedRead buf e))) := by
  simp only [convToInvariadicValue, LittleEndian.Uint32, BigEndian.Uint32, hlen, le_refl,
    if_true, Result.ofRead, unsignedRead, read_exact buf _ hlen]
  split <;> rfl

/-- For `float64` and a run of eight bytes the result is the float nearest to
the unsigned read of the run, taken as a number. -/
theorem convToInvariadicValue_Float64 (buf : List Byte) (hlen : buf.length = 8) (e : Nat) :
    convToInvariadicValue buf .Float64 e =
      .ok (.float .Float64 (float64OfNat (unsignedRead buf e))) := by
  simp only [convToInvariadicValue, LittleEndian.Uint64, BigEndian.Uint64, hlen, le_refl,
    if_true, Result.ofRead, unsignedRead, read_exact buf _ hlen]
  split <;> rfl

/-- For every supported kind other than `Int` and a byte run of the width of
the kind, the conversion returns a value of that kind. -/
theorem convToInvariadicValue_faithful (k : Kind) (hk : k ∈ faithfulKinds)
    (buf : List Byte) (hlen : buf.length = k.Size) (e : Nat) :
    ∃ v, convToInvariadicValue buf k e = .ok v ∧ v.goType = .basic k := by
  simp only [faithfulKinds, List.mem_cons, List.mem_singleton, List.not_mem_nil, or_false] at hk
  rcases hk with rfl | rfl | rfl | rfl | rfl | rfl | rfl | rfl | rfl | rfl | rfl | rfl | rfl
  · obtain ⟨b, -, h⟩ := convToInvariadicValue_Bool buf hlen e
    exact ⟨_, h, rfl⟩
  · exact ⟨_, convToInvariadicValue_signed _ (by simp [sizedSignedKinds]) buf hlen e, rfl⟩
  · exact ⟨_, convToInvariadicValue_signed _ (by simp [sizedSignedKinds]) buf hlen e, rfl⟩
  · exact ⟨_, convToInvariadicValue_signed _ (by simp [sizedSignedKinds]) buf hlen e, rfl⟩
  · exact ⟨_, convToInvariadicValue_signed _ (by simp [sizedSignedKinds]) buf hlen e, rfl⟩
  · exact ⟨_, convToInvariadicValue_unsigned _ (by simp [unsignedKinds]) buf hlen e, rfl⟩
  · exact ⟨_, convToInvariadicValue_unsigned _ (by simp [unsignedKinds]) buf hlen e, rfl⟩
  · exact ⟨_, convToInvariadicValue_unsigned _ (by simp [unsignedKinds]) buf hlen e, rfl⟩
  · exact ⟨_, convToInvariadicValue_unsigned _ (by simp [unsignedKinds]) buf hlen e, rfl⟩
  · exact ⟨_, convToInvariadicValue_unsigned _ (by simp [unsignedKinds]) buf hlen e, rfl⟩
  · exact ⟨_, convToInvariadicValue_unsigned _ (by simp [unsignedKinds]) buf hlen e, rfl⟩
  · exact ⟨_, convToInvariadicValue_Float32 buf hlen e, rfl⟩
  · exact ⟨_, convToInvariadicValue_Float64 buf hlen e, rfl⟩

/-- For every supported kind other than `Int` and a stream with at least the
width of the kind left, `doParseValue` returns the conversion of the next
`Size` bytes, a value of that kind, and leaves the stream `Size` bytes
further. -/
theorem doParseValue_faithful (k : Kind) (hk : k ∈ faithfulKinds) (s : Stream)
    (hs : k.Size ≤ s.length) (val : Value) (e : Nat) :
    ∃ v, doParseValue s (.basic k) val e = (.ok v, s.drop k.Size) ∧
      convToInvariadicValue (s.take k.Size) k e = .ok v ∧ v.goType = .basic k := by
  have h1 : k ≠ .Invalid := by
    intro h; subst h; simp [faithfulKinds] at hk
  have h2 : k.toNat < Kind.Chan.toNat := by
    simp only [faithfulKinds, List.mem_cons, List.mem_singleton, List.not_mem_nil,
      or_false] at hk
    rcases hk with rfl | rfl | rfl | rfl | rfl | rfl | rfl | rfl | rfl | rfl | rfl | rfl | rfl <;>
      decide
  obtain ⟨v, hv, ht⟩ := convToInvariadicValue_faithful k hk (s.take k.Size)
    (by rw [List.length_take]; omega) e
  refine ⟨v, ?_, hv, ht⟩
  rw [doParseValue_basic s k val e h1 h2, Read_of_le s _ hs]
  simp only [hv]

theorem take_succ_set {α : Type} (l : List α) (i : Nat) (x : α) (h : i < l.length) :
    (l.set i x).take (i + 1) = l.take i ++ [x] := by
  induction l generalizing i with
  | nil => simp at h
  | cons a l ih =>
    cases i with
    | zero => simp
    | succ i =>
      simp only [List.length_cons, Nat.add_lt_add_iff_right] at h
      simp [ih i h]

theorem doParseValue_Uint8 (b : Byte) (s : Stream) (val : Value) (e : Nat) :
    doParseValue (b :: s) (.basic .Uint8) val e = (.ok (.integer .Uint8 b.val), s) := by
  have hb := b.isLt
  rw [doParseValue_basic _ _ _ _ (by decide) (by decide)]
  simp only [Kind.Size, Read, List.length_replicate, List.take_succ_cons, List.take_zero,
    List.length_cons, List.length_nil, List.drop_succ_cons, List.drop_zero,
    convToInvariadicValue, List.head?, toUnsigned]
  simp [Nat.mod_eq_of_lt hb]

/-- The array loop on `uint8` elements stores the next `count` bytes at the
indices `i, i + 1, ...` and leaves the stream `count` bytes further. -/
theorem arrayLoop_Uint8 (e n : Nat) :
    ∀ (count i : Nat) (s : Stream) (elems : List Value),
      i + count = n → elems.length = n → count ≤ s.length →
      arrayLoop (fun s v => doParseValue s (.basic .Uint8) v e) false count i s
          (.array (.array n (.basic .Uint8)) elems) =
        (.ok (.array (.array n (.basic .Uint8))
          (elems.take i ++ (s.take count).map (fun b => Value.integer .Uint8 b.val))),
         s.drop count) := by
  intro count
  induction count with
  | zero =>
    intro i s elems hi hl _
    have : i = elems.length := by omega
    simp [arrayLoop, this]
  | succ count ih =>
    intro i s elems hi hl hs
    match s, hs with
    | b :: s, hs =>
      have hlt : i < n := by omega
      simp only [List.length_cons, Nat.add_le_add_iff_right] at hs
      rw [arrayLoop, doParseValue_Uint8]
      simp only [Bool.false_eq_true, if_false, Value.setIndex, Value.goType, hlt, and_self,
        if_true]
      rw [ih (i + 1) s _ (by omega) (by simp [hl]) hs, take_succ_set _ _ _ (by omega)]
      simp

/-- On a struct type `doParseValue` is `ParseStructFromBinaryStream`. -/
theorem doParseValue_struct (s : Stream) (fs : List GoType) (val : Value) (e : Nat) :
    doParseValue s (.struct fs) val e = ParseStructFromBinaryStream s (.struct fs) e := by
  rw [doParseValue, ParseStructFromBinaryStream]
  simp [GoType.Kind, Kind.toNat]

/-- On an array type `doParseValue` is `ParseArrayFromBinaryStream` applied to
the value it was handed. -/
theorem doParseValue_array (s : Stream) (n : Nat) (el : GoType) (val : Value) (e : Nat) :
    doParseValue s (.array n el) val e = ParseArrayFromBinaryStream s (.array n el) val e := by
  rw [doParseValue, ParseArrayFromBinaryStream]
  simp [GoType.Kind, Kind.toNat]

theorem zeroValue_array (n : Nat) (el : GoType) :
    zeroValue (.array n el) = .array (.array n el) (List.replicate n (zeroValue el)) := by
  rw [zeroValue]

theorem structLoop_regular (e : Nat) (fs : List GoType)
    (ih : ∀ t ∈ fs, DecodesRegular e t) (hr : RegularAll fs) :
    ∀ (s : Stream), byteSizes fs ≤ s.length →
      ∃ vals, structLoop s fs e = (.ok vals, s.drop (byteSizes fs)) := by
  induction fs with
  | nil =>
    intro s _
    exact ⟨[], by simp [structLoop, byteSizes]⟩
  | cons t ts iht =>
    intro s hs
    rw [RegularAll] at hr
    rw [byteSizes] at hs
    obtain ⟨v, hv, hty⟩ := ih t (List.mem_cons_self _ _) hr.1 s (zeroValue t)
      (by
        intro n el ht
        subst ht
        exact ⟨_, zeroValue_array n el⟩)
      (by omega)
    obtain ⟨vals, hvals⟩ := iht (fun u hu => ih u (List.mem_cons_of_mem _ hu)) hr.2
      (s.drop (byteSize t)) (by rw [List.length_drop]; omega)
    refine ⟨v :: vals, ?_⟩
    rw [structLoop, hv]
    simp only [hty, if_true, hvals, List.drop_drop, byteSizes]

theorem arrayLoop_regular (e n : Nat) (el : GoType) (ih : DecodesRegular e el)
    (hr : Regular el) (hk : el.Kind ≠ .Array) :
    ∀ (count i : Nat) (s : Stream) (elems : List Value),
      i + count = n → count * byteSize el ≤ s.length →
      ∃ elems1, arrayLoop (fun s v => doParseValue s el v e) false count i s
          (.array (.array n el) elems) =
        (.ok (.array (.array n el) elems1), s.drop (count * byteSize el)) := by
  intro count
  induction count with
  | zero =>
    intro i s elems _ _
    exact ⟨elems, by simp [arrayLoop]⟩
  | succ count ihc =>
    intro i s elems hi hs
    have hlt : i < n := by omega
    rw [Nat.succ_mul] at hs
    obtain ⟨v, hv, hty⟩ := ih hr s (.array (.array n el) elems)
      (by
        intro n1 el1 ht
        subst ht
        exact absurd rfl hk)
      (by omega)
    obtain ⟨elems1, h1⟩ := ihc (i + 1) (s.drop (byteSize el)) (elems.set i v) (by omega)
      (by rw [List.length_drop]; omega)
    refine ⟨elems1, ?_⟩
    rw [arrayLoop]
    simp only [hv, Bool.false_eq_true, if_false, Value.setIndex, hty, hlt, and_self, if_true]
    rw [h1, List.drop_drop, Nat.succ_mul, Nat.add_comm]

/-- For every descriptor built from the supported primitives other than `int`,
structs, and arrays whose element is not itself an array, and every stream with
at least `byteSize` bytes left, the decode succeeds with a value of the type
of the descriptor and leaves the stream exactly `byteSize` bytes further. -/
theorem doParseValue_regular (e : Nat) : ∀ t, DecodesRegular e t := by
  apply GoType.induct
  · intro k hr s val _ hs
    rw [Regular] at hr
    rw [byteSize] at hs ⊢
    obtain ⟨v, hv, -, hty⟩ := doParseValue_faithful k hr s hs val e
    exact ⟨v, hv, hty⟩
  · intro fs ih hr s val _ hs
    rw [Regular] at hr
    rw [byteSize] at hs ⊢
    obtain ⟨vals, hvals⟩ := structLoop_regular e fs ih hr s hs
    refine ⟨.struct (.struct fs) vals, ?_, rfl⟩
    rw [doParseValue_struct, ParseStructFromBinaryStream, hvals]
  · intro n el ih hr s val hval hs
    rw [Regular] at hr
    rw [byteSize] at hs ⊢
    obtain ⟨elems, rfl⟩ := hval n el rfl
    obtain ⟨elems1, h1⟩ := arrayLoop_regular e n el ih hr.1 hr.2 n 0 s elems (by omega) hs
    refine ⟨.array (.array n el) elems1, ?_, rfl⟩
    rw [doParseValue_array, ParseArrayFromBinaryStream]
    simp only [hr.2, decide_False]
    exact h1

/-- For a struct whose fields are supported primitives other than `int` and a
stream with enough bytes, the struct loop succeeds, leaves the stream the sum
of the widths further, and field `i` holds the conversion of the bytes that
start at the sum of the widths of the fields declared before it. -/
theorem structLoop_basic_fields (e : Nat) (ks : List Kind) :
    (∀ k ∈ ks, k ∈ faithfulKinds) →
    ∀ (s : Stream), (ks.map Kind.Size).sum ≤ s.length →
      ∃ vals, structLoop s (ks.map GoType.basic) e = (.ok vals, s.drop (ks.map Kind.Size).sum) ∧
        ∀ i k, ks[i]? = some k →
          ∃ v, vals[i]? = some v ∧
            convToInvariadicValue ((s.drop (fieldOffset ks i)).take k.Size) k e = .ok v := by
  induction ks with
  | nil =>
    intro _ s _
    exact ⟨[], by simp [structLoop], by simp⟩
  | cons k ks ih =>
    intro hk s hs
    simp only [List.map_cons, List.sum_cons] at hs ⊢
    obtain ⟨v, hv, hconv, hty⟩ := doParseValue_faithful k (hk k (List.mem_cons_self _ _)) s
      (by omega) (zeroValue (.basic k)) e
    obtain ⟨vals, hvals, hidx⟩ := ih (fun k1 h1 => hk k1 (List.mem_cons_of_mem _ h1))
      (s.drop k.Size) (by rw [List.length_drop]; omega)
    refine ⟨v :: vals, ?_, ?_⟩
    · rw [structLoop, hv]
      simp only [hty, if_true, hvals, List.drop_drop]
    · intro i k1 hi
      cases i with
      | zero =>
        simp only [List.getElem?_cons_zero, Option.some.injEq] at hi
        subst hi
        exact ⟨v, by simp, by simpa [fieldOffset] using hconv⟩
      | succ i =>
        simp only [List.getElem?_cons_succ] at hi
        obtain ⟨v1, h1, h2⟩ := hidx i k1 hi
        refine ⟨v1, by simpa using h1, ?_⟩
        have hoff : fieldOffset (k :: ks) (i + 1) = k.Size + fieldOffset ks i := by
          simp [fieldOffset]
        rw [hoff, ← List.drop_drop]
        exact h2

theorem structLoop_of_ParseStruct (s : Stream) (fs : List GoType) (e : Nat) (v : Value)
    (s1 : Stream) (h : ParseStructFromBinaryStream s (.struct fs) e = (.ok v, s1)) :
    ∃ vals, structLoop s fs e = (.ok vals, s1) := by
  rw [ParseStructFromBinaryStream] at h
  rcases hl : structLoop s fs e with ⟨r, rest⟩
  rw [hl] at h
  cases r with
  | ok vals =>
    simp only [Prod.mk.injEq] at h
    exact ⟨vals, by rw [h.2]⟩
  | error e2 => simp at h
  | panic => simp at h

theorem Result.ofRead_ne_error (r : Option Nat) (f : Nat → Value) (err : ParseError) :
    Result.ofRead r f ≠ .error err := by
  cases r <;> simp [Result.ofRead]

/-- The only error `convToInvariadicValue` returns is "type error". -/
theorem convToInvariadicValue_error (buf : List Byte) (k : Kind) (e : Nat) (err : ParseError)
    (h : convToInvariadicValue buf k e = .error err) : err = .typeError := by
  cases k <;> simp only [convToInvariadicValue] at h <;>
    first
      | (simp only [Result.error.injEq] at h; exact h.symm)
      | (split at h <;> first
          | exact absurd h (Result.ofRead_ne_error _ _ _)
          | (split at h <;> simp at h)
          | simp at h)

theorem structLoop_never_notLongEnough (e : Nat) (fs : List GoType)
    (ih : ∀ t ∈ fs, NeverNotLongEnough e t) :
    ∀ (s : Stream) (err : ParseError) (s1 : Stream),
      structLoop s fs e = (.error err, s1) → err ≠ .notLongEnough := by
  induction fs with
  | nil =>
    intro s err s1 h
    simp [structLoop] at h
  | cons t ts iht =>
    intro s err s1 h
    rw [structLoop] at h
    rcases hd : doParseValue s t (zeroValue t) e with ⟨r, rest⟩
    rw [hd] at h
    cases r with
    | ok parsed =>
      simp only at h
      split at h
      · rcases hl : structLoop rest ts e with ⟨r2, rest2⟩
        rw [hl] at h
        cases r2 with
        | ok vals => simp at h
        | error e2 =>
          simp only [Prod.mk.injEq, Result.error.injEq] at h
          obtain ⟨rfl, rfl⟩ := h
          exact iht (fun u hu => ih u (List.mem_cons_of_mem _ hu)) rest e2 rest2 hl
        | panic => simp at h
      · simp at h
    | error e2 =>
      simp only [Prod.mk.injEq, Result.error.injEq] at h
      obtain ⟨rfl, rfl⟩ := h
      exact ih t (List.mem_cons_self _ _) s _ e2 rest hd
    | panic => simp at h

theorem arrayLoop_never_notLongEnough (e : Nat) (el : GoType) (b : Bool)
    (ih : NeverNotLongEnough e el) :
    ∀ (count i : Nat) (s : Stream) (arr : Value) (err : ParseError) (s1 : Stream),
      arrayLoop (fun s v => doParseValue s el v e) b count i s arr = (.error err, s1) →
      err ≠ .notLongEnough := by
  intro count
  induction count with
  | zero =>
    intro i s arr err s1 h
    simp [arrayLoop] at h
  | succ count ihc =>
    intro i s arr err s1 h
    rw [arrayLoop] at h
    rcases hd : doParseValue s el arr e with ⟨r, rest⟩
    simp only [hd] at h
    cases r with
    | ok parsed =>
      simp only at h
      split at h
      · exact ihc _ _ _ _ _ h
      · simp at h
    | error e2 =>
      simp only [Prod.mk.injEq, Result.error.injEq] at h
      obtain ⟨rfl, rfl⟩ := h
      exact ih s arr e2 rest hd
    | panic => simp at h

/-- No stream, however short, makes the decode of any descriptor return the
error "file content not long enough". -/
theorem doParseValue_never_notLongEnough (e : Nat) : ∀ t, NeverNotLongEnough e t := by
  apply GoType.induct
  · intro k s val err s1 h
    rw [doParseValue] at h
    simp only [GoType.Kind] at h
    split at h
    · simp only [Prod.mk.injEq, Result.error.injEq] at h
      rw [← h.1]; decide
    · split at h
      · simp only [Prod.mk.injEq, Result.error.injEq] at h
        rw [← h.1]; decide
      · have h4 : ¬ ((Read s (List.replicate k.Size (0 : Byte))).1.length < k.Size) := by
          rw [Read_length]; simp
        simp only [h4, if_false] at h
        split at h
        · simp at h
        · rename_i e2 hc
          simp only [Prod.mk.injEq, Result.error.injEq] at h
          rw [← h.1, convToInvariadicValue_error _ _ _ _ hc]
          decide
        · simp at h
  · intro fs ih s val err s1 h
    rw [doParseValue_struct, ParseStructFromBinaryStream] at h
    rcases hl : structLoop s fs e with ⟨r, rest⟩
    rw [hl] at h
    cases r with
    | ok vals => simp at h
    | error e2 =>
      simp only [Prod.mk.injEq, Result.error.injEq] at h
      obtain ⟨rfl, rfl⟩ := h
      exact structLoop_never_notLongEnough e fs ih s e2 rest hl
    | panic => simp at h
  · intro n el ih s val err s1 h
    rw [doParseValue_array, ParseArrayFromBinaryStream] at h
    exact arrayLoop_never_notLongEnough e el _ ih n 0 s val err s1 h

/-- The conversion to `float32` on a few integers: 1 is `0x3f800000`; the
24-bit significand makes 16777217 round down to 16777216 and 16777219 round up
to 16777220 (ties to even); the largest `uint32` rounds up to `2 ^ 32`. -/
theorem float32OfNat_examples :
    float32OfNat 1 = 0x3f800000 ∧
    float32OfNat 16777217 = 0x4b800000 ∧ float32Value 0x4b800000 = 16777216 ∧
    float32OfNat 16777219 = 0x4b800002 ∧ float32Value 0x4b800002 = 16777220 ∧
    float32OfNat 4294967295 = 0x4f800000 ∧ float32Value 0x4f800000 = 4294967296 := by
  refine ⟨rfl, rfl, ?_, rfl, ?_, rfl, ?_⟩ <;> norm_num [float32Value, floatValue]

/-- For the kind `Int` and a run of eight bytes the result is the unsigned read
of the run, returned as a `uint64`. -/
theorem convToInvariadicValue_Int (buf : List Byte) (hlen : buf.length = 8) (e : Nat) :
    convToInvariadicValue buf .Int e = .ok (.integer .Uint64 (unsignedRead buf e)) := by
  simp only [convToInvariadicValue, LittleEndian.Uint64, BigEndian.Uint64, hlen, le_refl,
    if_true, Result.ofRead, unsignedRead, read_exact buf _ hlen]
  split <;> rfl

/-- For every supported kind and a byte run of the width of the kind, the
conversion returns a value: no error and no index out of range. -/
theorem convToInvariadicValue_supported (k : Kind) (hk : k ∈ supportedKinds)
    (buf : List Byte) (hlen : buf.length = k.Size) (e : Nat) :
    ∃ v, convToInvariadicValue buf k e = .ok v := by
  by_cases hi : k = .Int
  · subst hi
    exact ⟨_, convToInvariadicValue_Int buf hlen e⟩
  · have hf : k ∈ faithfulKinds := by
      simp only [supportedKinds, faithfulKinds, List.mem_cons, List.mem_singleton,
        List.not_mem_nil, or_false] at hk ⊢
      tauto
    obtain ⟨v, hv, -⟩ := convToInvariadicValue_faithful k hf buf hlen e
    exact ⟨v, hv⟩

/-- The little-endian read of a run is the big-endian read of the reversed
run. -/
theorem unsignedRead_reverse (buf : List Byte) :
    unsignedRead buf LITTLE_ENDIAN = unsignedRead buf.reverse BIG_ENDIAN := by
  simp [unsignedRead, LITTLE_ENDIAN, BIG_ENDIAN, beNat_reverse]

/-- For a multi-byte numeric kind and a run of its width, decoding the run in
little-endian order is decoding the reversed run in big-endian order. -/
theorem convToInvariadicValue_reverse (k : Kind) (hk : k ∈ multiByteKinds)
    (buf : List Byte) (hlen : buf.length = k.Size) :
    convToInvariadicValue buf k LITTLE_ENDIAN =
      convToInvariadicValue buf.reverse k BIG_ENDIAN := by
  have hr : buf.reverse.length = k.Size := by rw [List.length_reverse, hlen]
  simp only [multiByteKinds, List.mem_cons, List.mem_singleton, List.not_mem_nil,
    or_false] at hk
  rcases hk with rfl | rfl | rfl | rfl | rfl | rfl | rfl | rfl | rfl | rfl | rfl
  · rw [convToInvariadicValue_Int _ hlen, convToInvariadicValue_Int _ hr, unsignedRead_reverse]
  · rw [convToInvariadicValue_signed _ (by simp [sizedSignedKinds]) _ hlen,
      convToInvariadicValue_signed _ (by simp [sizedSignedKinds]) _ hr, unsignedRead_reverse]
  · rw [convToInvariadicValue_signed _ (by simp [sizedSignedKinds]) _ hlen,
      convToInvariadicValue_signed _ (by simp [sizedSignedKinds]) _ hr, unsignedRead_reverse]
  · rw [convToInvariadicValue_signed _ (by simp [sizedSignedKinds]) _ hlen,
      convToInvariadicValue_signed _ (by simp [sizedSignedKinds]) _ hr, unsignedRead_reverse]
  · rw [convToInvariadicValue_unsigned _ (by simp [unsignedKinds]) _ hlen,
      convToInvariadicValue_unsigned _ (by simp [unsignedKinds]) _ hr, unsignedRead_reverse]
  · rw [convToInvariadicValue_unsigned _ (by simp [unsignedKinds]) _ hlen,
      convToInvariadicValue_unsigned _ (by simp [unsignedKinds]) _ hr, unsignedRead_reverse]
  · rw [convToInvariadicValue_unsigned _ (by simp [unsignedKinds]) _ hlen,
      convToInvariadicValue_unsigned _ (by simp [unsignedKinds]) _ hr, unsignedRead_reverse]
  · rw [convToInvariadicValue_unsigned _ (by simp [unsignedKinds]) _ hlen,
      convToInvariadicValue_unsigned _ (by simp [unsignedKinds]) _ hr, unsignedRead_reverse]
  · rw [convToInvariadicValue_unsigned _ (by simp [unsignedKinds]) _ hlen,
      convToInvariadicValue_unsigned _ (by simp [unsignedKinds]) _ hr, unsignedRead_reverse]
  · rw [convToInvariadicValue_Float32 _ hlen, convToInvariadicValue_Float32 _ hr,
      unsignedRead_reverse]
  · rw [convToInvariadicValue_Float64 _ hlen, convToInvariadicValue_Float64 _ hr,
      unsignedRead_reverse]

/-- For the one-byte kinds the endian selector is not looked at. -/
theorem convToInvariadicValue_single_byte (k : Kind) (hk : k ∈ singleByteKinds)
    (buf : List Byte) (e1 e2 : Nat) :
    convToInvariadicValue buf k e1 = convToInvariadicValue buf k e2 := by
  simp only [singleByteKinds, List.mem_cons, List.mem_singleton, List.not_mem_nil,
    or_false] at hk
  rcases hk with rfl | rfl | rfl <;> simp only [convToInvariadicValue]

/-- Every endian selector other than `LITTLE_ENDIAN` is treated as
`BIG_ENDIAN`. -/
theorem convToInvariadicValue_end (buf : List Byte) (k : Kind) (e : Nat)
    (he : e ≠ LITTLE_ENDIAN) :
    convToInvariadicValue buf k e = convToInvariadicValue buf k BIG_ENDIAN := by
  have hb : BIG_ENDIAN ≠ LITTLE_ENDIAN := by decide
  cases k <;> simp only [convToInvariadicValue, he, hb, if_false]

theorem andThen_ok {α : Type} (r : Result α × Stream) :
    andThen r (fun v rest => (.ok v, rest)) = r := by
  rcases r with ⟨r, s⟩
  cases r <;> rfl

theorem ParseStruct_eq_andThen (s : Stream) (fs : List GoType) (e : Nat) :
    ParseStructFromBinaryStream s (.struct fs) e =
      andThen (structLoop s fs e) (fun vals rest => (.ok (.struct (.struct fs) vals), rest)) := by
  rw [ParseStructFromBinaryStream]
  rcases structLoop s fs e with ⟨r, rest⟩
  cases r <;> rfl

theorem structLoop_cons (s : Stream) (t : GoType) (ts : List GoType) (e : Nat) :
    structLoop s (t :: ts) e =
      andThen (structLoop s [t] e) (fun va s1 =>
        andThen (structLoop s1 ts e) (fun vb s2 => (.ok (va ++ vb), s2))) := by
  rw [structLoop, structLoop]
  rcases doParseValue s t (zeroValue t) e with ⟨r, rest⟩
  cases r with
  | ok parsed =>
    simp only
    by_cases ht : parsed.goType = t
    · simp only [ht, if_true, structLoop, andThen]
      rcases structLoop rest ts e with ⟨r2, rest2⟩
      cases r2 <;> simp
    · simp only [ht, if_false, andThen]
  | error e2 => simp [andThen]
  | panic => simp [andThen]

/-- The loop over `a ++ b` is the loop over `a` followed, on the stream it
leaves, by the loop over `b`. -/
theorem structLoop_append (e : Nat) (a b : List GoType) :
    ∀ (s : Stream), structLoop s (a ++ b) e =
      andThen (structLoop s a e) (fun va s1 =>
        andThen (structLoop s1 b e) (fun vb s2 => (.ok (va ++ vb), s2))) := by
  induction a with
  | nil =>
    intro s
    simp only [List.nil_append, structLoop, andThen]
    exact (andThen_ok _).symm
  | cons t ts ih =>
    intro s
    rw [List.cons_append, structLoop_cons, structLoop_cons s t ts]
    rcases structLoop s [t] e with ⟨r, s1⟩
    cases r with
    | ok va =>
      simp only [andThen]
      rw [ih s1]
      rcases structLoop s1 ts e with ⟨r2, s2⟩
      cases r2 with
      | ok vb =>
        simp only [andThen]
        rcases structLoop s2 b e with ⟨r3, s3⟩
        cases r3 <;> simp
      | error e2 => simp [andThen]
      | panic => simp [andThen]
    | error e2 => simp [andThen]
    | panic => simp [andThen]

/-- A struct-typed field is decoded by the field loop of the inner struct. -/
theorem structLoop_struct_field (s : Stream) (inner : List GoType) (e : Nat) :
    structLoop s [.struct inner] e =
      andThen (structLoop s inner e) (fun vi s1 =>
        (.ok [.struct (.struct inner) vi], s1)) := by
  rw [structLoop, doParseValue_struct, ParseStructFromBinaryStream]
  rcases structLoop s inner e with ⟨r, rest⟩
  cases r <;> simp [andThen, Value.goType, structLoop]

theorem leavesOf_append (a b : List Value) : leavesOf (a ++ b) = leavesOf a ++ leavesOf b := by
  induction a with
  | nil => simp [leavesOf]
  | cons v vs ih => simp [leavesOf, ih]

theorem loopLeaves_seq (r : Result (List Value) × Stream)
    (g : Stream → Result (List Value) × Stream) :
    loopLeaves (andThen r (fun va s1 => andThen (g s1) (fun vb s2 => (.ok (va ++ vb), s2)))) =
      andThen (loopLeaves r) (fun la s1 =>
        andThen (loopLeaves (g s1)) (fun lb s2 => (.ok (la ++ lb), s2))) := by
  rcases r with ⟨r, s⟩
  cases r with
  | ok va =>
    simp only [andThen, loopLeaves]
    rcases g s with ⟨r2, s2⟩
    cases r2 <;> simp [leavesOf_append]
  | error e2 => simp [andThen, loopLeaves]
  | panic => simp [andThen, loopLeaves]

theorem loopLeaves_struct_field (s : Stream) (inner : List GoType) (e : Nat) :
    loopLeaves (structLoop s [.struct inner] e) = loopLeaves (structLoop s inner e) := by
  rw [structLoop_struct_field]
  rcases structLoop s inner e with ⟨r, rest⟩
  cases r <;> simp [andThen, loopLeaves, leavesOf, Value.leaves]

/-- The field loop over a list of fields and the field loop over the flattened
list stop in the same way on the same stream, and when they succeed they give
the same leaf values. -/
theorem structLoop_flatten (e : Nat) (fs : List GoType) :
    ∀ (s : Stream), loopLeaves (structLoop s fs e) = loopLeaves (structLoop s (flattenFields fs) e) := by
  refine GoType.rec_1
    (motive_1 := fun t => ∀ (s : Stream),
      loopLeaves (structLoop s [t] e) = loopLeaves (structLoop s (flattenType t) e))
    (motive_2 := fun fs => ∀ (s : Stream),
      loopLeaves (structLoop s fs e) = loopLeaves (structLoop s (flattenFields fs) e))
    ?_ ?_ ?_ ?_ ?_ fs
  · intro k s
    rw [flattenType]
  · intro inner ih s
    rw [flattenType, loopLeaves_struct_field]
    exact ih s
  · intro n el _ s
    rw [flattenType]
  · intro s
    rw [flattenFields]
  · intro t ts iht ihts s
    rw [flattenFields, structLoop_cons, structLoop_append, loopLeaves_seq, loopLeaves_seq, iht s]
    simp only [ihts]

theorem decodedLeaves_ParseStruct (s : Stream) (fs : List GoType) (e : Nat) :
    decodedLeaves (ParseStructFromBinaryStream s (.struct fs) e) =
      loopLeaves (structLoop s fs e) := by
  rw [ParseStruct_eq_andThen]
  rcases structLoop s fs e with ⟨r, rest⟩
  cases r <;> simp [andThen, decodedLeaves, loopLeaves, Value.leaves]

/-- The value handed to `doParseValue` is looked at only when the type is an
array. -/
theorem doParseValue_val_irrelevant (s : Stream) (t : GoType) (hk : t.Kind ≠ .Array)
    (v1 v2 : Value) (e : Nat) : doParseValue s t v1 e = doParseValue s t v2 e := by
  cases t with
  | basic k => rw [doParseValue, doParseValue]
  | struct fs => rw [doParseValue_struct, doParseValue_struct]
  | array n el => exact absurd rfl hk

theorem arrayLoop_regular_elements (e n : Nat) (el : GoType) (hr : Regular el)
    (hk : el.Kind ≠ .Array) :
    ∀ (count i : Nat) (s : Stream) (elems0 : List Value),
      i + count = n → elems0.length = n → count * byteSize el ≤ s.length →
      ∃ elems, arrayLoop (fun s v => doParseValue s el v e) false count i s
          (.array (.array n el) elems0) =
          (.ok (.array (.array n el) elems), s.drop (count * byteSize el)) ∧
        elems.length = n ∧
        (∀ j, j < i → elems[j]? = elems0[j]?) ∧
        ∀ j, j < count → ∃ v, elems[i + j]? = some v ∧
          ∀ val, doParseValue (s.drop (j * byteSize el)) el val e =
            (.ok v, s.drop ((j + 1) * byteSize el)) := by
  intro count
  induction count with
  | zero =>
    intro i s elems0 _ hl _
    exact ⟨elems0, by simp [arrayLoop], hl, fun _ _ => rfl, fun j hj => absurd hj (by omega)⟩
  | succ count ihc =>
    intro i s elems0 hi hl hs
    have hlt : i < n := by omega
    rw [Nat.succ_mul] at hs
    obtain ⟨v, hv, hty⟩ := doParseValue_regular e el hr s (.array (.array n el) elems0)
      (by
        intro n1 el1 ht
        subst ht
        exact absurd rfl hk)
      (by omega)
    obtain ⟨elems, h1, h2, h3, h4⟩ := ihc (i + 1) (s.drop (byteSize el)) (elems0.set i v)
      (by omega) (by simp [hl]) (by rw [List.length_drop]; omega)
    refine ⟨elems, ?_, h2, ?_, ?_⟩
    · rw [arrayLoop]
      simp only [hv, Bool.false_eq_true, if_false, Value.setIndex, hty, hlt, and_self, if_true]
      rw [h1, List.drop_drop, Nat.succ_mul, Nat.add_comm]
    · intro j hj
      rw [h3 j (by omega), List.getElem?_set_ne (by omega)]
    · intro j hj
      cases j with
      | zero =>
        refine ⟨v, ?_, ?_⟩
        · rw [Nat.add_zero, h3 i (by omega), List.getElem?_set_self (by omega)]
        · intro val
          rw [doParseValue_val_irrelevant _ _ hk val (.array (.array n el) elems0)]
          simpa using hv
      | succ j =>
        obtain ⟨w, hw1, hw2⟩ := h4 j (by omega)
        refine ⟨w, ?_, ?_⟩
        · rw [show i + (j + 1) = i + 1 + j by omega]
          exact hw1
        · intro val
          have := hw2 val
          rw [List.drop_drop, List.drop_drop] at this
          rw [show (j + 1) * byteSize el = byteSize el + j * byteSize el by
              rw [Nat.succ_mul, Nat.add_comm],
            show (j + 1 + 1) * byteSize el = byteSize el + (j + 1) * byteSize el by
              rw [Nat.succ_mul (j + 1), Nat.add_comm]]
          exact this

/-- For an array whose element type is built from the supported primitives
other than `int`, structs, and arrays that are not directly nested, and is not
itself an array, and a stream with enough bytes: the array decode succeeds,
the array has its `n` slots, slot `i` holds what `doParseValue` on the element
type returns at the stream position reached after `i` elements, and the stream
is left `n` elements further. -/
theorem ParseArray_regular_elements (e n : Nat) (el : GoType) (hr : Regular el)
    (hk : el.Kind ≠ .Array) (s : Stream) (hs : n * byteSize el ≤ s.length) :
    ∃ elems, ParseArrayFromBinaryStream s (.array n el) (zeroValue (.array n el)) e =
        (.ok (.array (.array n el) elems), s.drop (n * byteSize el)) ∧
      elems.length = n ∧
      ∀ i, i < n → ∃ v, elems[i]? = some v ∧
        ∀ val, doParseValue (s.drop (i * byteSize el)) el val e =
          (.ok v, s.drop ((i + 1) * byteSize el)) := by
  obtain ⟨elems, h1, h2, -, h4⟩ := arrayLoop_regular_elements e n el hr hk n 0 s
    (List.replicate n (zeroValue el)) (by omega) (by simp) hs
  refine ⟨elems, ?_, h2, ?_⟩
  · rw [ParseArrayFromBinaryStream, zeroValue_array]
    simp only [hk, decide_False]
    exact h1
  · intro i hi
    simpa using h4 i hi

/-- The kinds that reach the default branch of `doParseValue`: those that are
neither `Invalid`, nor at or above `Chan`, nor `Array`. -/
theorem default_branch_kinds (k : Kind) (h1 : k ≠ .Invalid)
    (h2 : ¬ (Kind.Chan.toNat ≤ k.toNat ∧ k ≠ .Struct)) (h3 : k ≠ .Struct) (h4 : k ≠ .Array) :
    k ∈ supportedKinds ∨ k = .Complex64 ∨ k = .Complex128 := by
  cases k <;> simp_all [supportedKinds, Kind.toNat]

/-- On a complex type `doParseValue` reads the bytes of the type and returns
the conversion error. -/
theorem doParseValue_complex (k : Kind) (hk : k = .Complex64 ∨ k = .Complex128)
    (s : Stream) (val : Value) (e : Nat) :
    convToInvariadicValue (Read s (List.replicate k.Size (0 : Byte))).1 k e =
      .error .typeError ∧
    doParseValue s (.basic k) val e = (.error .typeError, s.drop k.Size) := by
  rcases hk with rfl | rfl
  · refine ⟨rfl, ?_⟩
    rw [doParseValue_basic _ _ _ _ (by decide) (by decide)]
    rfl
  · refine ⟨rfl, ?_⟩
    rw [doParseValue_basic _ _ _ _ (by decide) (by decide)]
    rfl

/-- On a supported primitive type `doParseValue` returns the conversion of the
buffer `Read` has filled, which is a value. -/
theorem doParseValue_supported (k : Kind) (hk : k ∈ supportedKinds)
    (s : Stream) (val : Value) (e : Nat) :
    ∃ v, convToInvariadicValue (Read s (List.replicate k.Size (0 : Byte))).1 k e = .ok v ∧
      doParseValue s (.basic k) val e = (.ok v, s.drop k.Size) := by
  have h1 : k ≠ .Invalid := by
    intro h; subst h; simp [supportedKinds] at hk
  have h2 : k.toNat < Kind.Chan.toNat := by
    simp only [supportedKinds, List.mem_cons, List.mem_singleton, List.not_mem_nil,
      or_false] at hk
    rcases hk with rfl | rfl | rfl | rfl | rfl | rfl | rfl | rfl | rfl | rfl | rfl | rfl | rfl |
      rfl <;> decide
  obtain ⟨v, hv⟩ := convToInvariadicValue_supported k hk
    (Read s (List.replicate k.Size (0 : Byte))).1 (by rw [Read_length]; simp) e
  refine ⟨v, hv, ?_⟩
  rw [doParseValue_basic s k val e h1 h2]
  simp only [hv]

/-! ## The claims of the specification -/

/-- C1: for every eight bytes `b0 .. b7`, `ParseStructFromBinaryStream` on a
struct type with a single `uint64` field, a stream holding exactly those bytes
and `BIG_ENDIAN` returns, with no error, the struct whose field is
`b0 * 256 ^ 7 + ... + b7`, and leaves the stream empty; for the bytes
`de ad be ef de ad be ef` the field is 16045690984833335023. -/
theorem C1_uint64_big_endian (b0 b1 b2 b3 b4 b5 b6 b7 : Byte) :
    ParseStructFromBinaryStream [b0, b1, b2, b3, b4, b5, b6, b7]
        (.struct [.basic .Uint64]) BIG_ENDIAN =
      (.ok (.struct (.struct [.basic .Uint64])
        [.integer .Uint64 ((b0.val * 256 ^ 7 + b1.val * 256 ^ 6 + b2.val * 256 ^ 5 +
          b3.val * 256 ^ 4 + b4.val * 256 ^ 3 + b5.val * 256 ^ 2 + b6.val * 256 +
          b7.val : Nat) : Int)]), []) ∧
    ParseStructFromBinaryStream [0xde, 0xad, 0xbe, 0xef, 0xde, 0xad, 0xbe, 0xef]
        (.struct [.basic .Uint64]) BIG_ENDIAN =
      (.ok (.struct (.struct [.basic .Uint64]) [.integer .Uint64 16045690984833335023]),
        []) := by
  refine ⟨?_, rfl⟩
  rw [← beNat_eight]
  simp [ParseStructFromBinaryStream, structLoop, doParseValue, GoType.Kind, Kind.toNat,
    Kind.Size, Read, convToInvariadicValue, BIG_ENDIAN, LITTLE_ENDIAN, BigEndian.Uint64,
    Result.ofRead, Value.goType]

/-- C2, evaluated where the code departs from it: decoding a `uint32` (width 4)
from a stream of the two bytes `01 02` does not fail.  `Read` leaves the last
two bytes of the buffer at zero, the length test that follows compares the
width with the length of the buffer and never fires, and the zero-padded
buffer is converted: the result is the value `0x01020000` in big-endian and
`0x00000201` in little-endian order, with no error, and the stream is left
empty. -/
theorem C2_short_stream_is_zero_padded :
    doParseValue [0x01, 0x02] (.basic .Uint32) (zeroValue (.basic .Uint32)) BIG_ENDIAN =
      (.ok (.integer .Uint32 0x01020000), []) ∧
    doParseValue [0x01, 0x02] (.basic .Uint32) (zeroValue (.basic .Uint32)) LITTLE_ENDIAN =
      (.ok (.integer .Uint32 0x00000201), []) :=
  ⟨rfl, rfl⟩

/-- C3, evaluated where the code departs from it: the bytes `3f 80 00 00` read
as a `float32` in big-endian order give the float whose numeric value is the
unsigned integer `0x3f800000 = 1065353216` (bit pattern `0x4e7e0000`), not the
float `1.0` whose bit pattern is `0x3f800000`. -/
theorem C3_float32_is_numeric_conversion :
    convToInvariadicValue [0x3f, 0x80, 0x00, 0x00] .Float32 BIG_ENDIAN =
      .ok (.float .Float32 0x4e7e0000) ∧
    float32Value 0x4e7e0000 = 1065353216 ∧
    unsignedRead [0x3f, 0x80, 0x00, 0x00] BIG_ENDIAN = 1065353216 ∧
    float32Value 0x3f800000 = 1 := by
  refine ⟨rfl, ?_, rfl, ?_⟩ <;> norm_num [float32Value, floatValue]

/-- C4, evaluated where the code departs from it: for the kind `Int` the eight
bytes `ff .. ff`, whose two's-complement reading is `-1`, are returned as the
`uint64` value 18446744073709551615 in either byte order, not as the `int`
value `-1`. -/
theorem C4_int_is_returned_as_uint64 :
    convToInvariadicValue [0xff, 0xff, 0xff, 0xff, 0xff, 0xff, 0xff, 0xff] .Int LITTLE_ENDIAN =
      .ok (.integer .Uint64 18446744073709551615) ∧
    convToInvariadicValue [0xff, 0xff, 0xff, 0xff, 0xff, 0xff, 0xff, 0xff] .Int BIG_ENDIAN =
      .ok (.integer .Uint64 18446744073709551615) ∧
    twosComplement 8 (unsignedRead [0xff, 0xff, 0xff, 0xff, 0xff, 0xff, 0xff, 0xff]
      LITTLE_ENDIAN) = -1 :=
  ⟨rfl, rfl, by decide⟩

/-- C5, evaluated where the code departs from it: the 8-byte little-endian
encoding of the `int` value `-1` decodes, for the kind `Int`, to the `uint64`
value 18446744073709551615, and the big-endian encoding of the `int` value `1`
to the `uint64` value `1`: the scalar returned is never of kind `Int`. -/
theorem C5_int_round_trip_changes_kind :
    convToInvariadicValue (encodeInt Kind.Int.Size LITTLE_ENDIAN (-1)) .Int LITTLE_ENDIAN =
      .ok (.integer .Uint64 18446744073709551615) ∧
    convToInvariadicValue (encodeInt Kind.Int.Size BIG_ENDIAN 1) .Int BIG_ENDIAN =
      .ok (.integer .Uint64 1) :=
  ⟨rfl, rfl⟩

/-- C6, evaluated where the code departs from it: a struct with a single `int`
field and a stream of eight bytes.  The field is decoded as a `uint64` value,
which `field.Set` refuses to store in an `int` field: the call panics and no
struct is returned.  On the struct of two `uint16` fields and the bytes
`00 01 00 02` in big-endian order the first declared field is 1 and the second
is 2. -/
theorem C6_int_field_panics :
    ParseStructFromBinaryStream [0, 0, 0, 0, 0, 0, 0, 1] (.struct [.basic .Int]) BIG_ENDIAN =
      (.panic, []) ∧
    ParseStructFromBinaryStream [0x00, 0x01, 0x00, 0x02]
        (.struct [.basic .Uint16, .basic .Uint16]) BIG_ENDIAN =
      (.ok (.struct (.struct [.basic .Uint16, .basic .Uint16])
        [.integer .Uint16 1, .integer .Uint16 2]), []) :=
  ⟨rfl, rfl⟩

/-- C7: for every length `n` and every stream with at least `n` bytes left,
decoding a struct whose only field is an `n`-element `uint8` array succeeds,
element `i` of the array is the `i`-th byte read, and the stream is left
exactly `n` bytes further; `ParseArrayFromBinaryStream` on the array itself
gives the same array. -/
theorem C7_uint8_array (n : Nat) (stream : Stream) (end_ : Nat) (h : n ≤ stream.length) :
    ParseStructFromBinaryStream stream (.struct [.array n (.basic .Uint8)]) end_ =
      (.ok (.struct (.struct [.array n (.basic .Uint8)])
        [.array (.array n (.basic .Uint8))
          ((stream.take n).map (fun b => Value.integer .Uint8 b.val))]),
       stream.drop n) ∧
    ParseArrayFromBinaryStream stream (.array n (.basic .Uint8))
        (zeroValue (.array n (.basic .Uint8))) end_ =
      (.ok (.array (.array n (.basic .Uint8))
        ((stream.take n).map (fun b => Value.integer .Uint8 b.val))),
       stream.drop n) := by
  have key := arrayLoop_Uint8 end_ n n 0 stream (List.replicate n (zeroValue (.basic .Uint8)))
    (by omega) (by simp) h
  simp only [List.take_zero, List.nil_append] at key
  have harr : ParseArrayFromBinaryStream stream (.array n (.basic .Uint8))
      (zeroValue (.array n (.basic .Uint8))) end_ =
      (.ok (.array (.array n (.basic .Uint8))
        ((stream.take n).map (fun b => Value.integer .Uint8 b.val))),
       stream.drop n) := by
    rw [ParseArrayFromBinaryStream, zeroValue_array]
    simpa [GoType.Kind] using key
  refine ⟨?_, harr⟩
  rw [ParseStructFromBinaryStream, structLoop, doParseValue_array, harr]
  simp [Value.goType, structLoop]

/-- C7 at the three-element array and the bytes `05 06 07`: the array is
`[5, 6, 7]`. -/
theorem C7_uint8_array_witness :
    3 ≤ ([0x05, 0x06, 0x07] : Stream).length ∧
    ParseStructFromBinaryStream [0x05, 0x06, 0x07] (.struct [.array 3 (.basic .Uint8)])
        BIG_ENDIAN =
      (.ok (.struct (.struct [.array 3 (.basic .Uint8)])
        [.array (.array 3 (.basic .Uint8))
          [.integer .Uint8 5, .integer .Uint8 6, .integer .Uint8 7]]), []) :=
  ⟨by decide, (C7_uint8_array 3 [0x05, 0x06, 0x07] BIG_ENDIAN (by decide)).1⟩

/-- C8: for every type of kind chan, func, interface, map, pointer, slice or
string, every stream, every value handed in and every endian selector,
`doParseValue` returns the error "struct field is variadic, unable to parse"
and the stream is the one it was given: no byte is read. -/
theorem C8_unsupported_kind_rejected (typ : GoType)
    (h : typ.Kind ∈ [Kind.Chan, Kind.Func, Kind.Interface, Kind.Map, Kind.Pointer, Kind.Slice,
      Kind.String])
    (stream : Stream) (val : Value) (end_ : Nat) :
    doParseValue stream typ val end_ = (.error .variadicField, stream) ∧
    ParseError.variadicField.message = "struct field is variadic, unable to parse" :=
  ⟨doParseValue_variadic_kinds typ h stream val end_, rfl⟩

/-- C8 at a channel type and the stream `01 02 03`. -/
theorem C8_unsupported_kind_rejected_witness :
    (GoType.basic .Chan).Kind ∈ [Kind.Chan, Kind.Func, Kind.Interface, Kind.Map, Kind.Pointer,
      Kind.Slice, Kind.String] ∧
    doParseValue [1, 2, 3] (.basic .Chan) (zeroValue (.basic .Chan)) LITTLE_ENDIAN =
      (.error .variadicField, [1, 2, 3]) :=
  ⟨by simp [GoType.Kind],
   (C8_unsupported_kind_rejected (.basic .Chan) (by simp [GoType.Kind]) [1, 2, 3]
      (zeroValue (.basic .Chan)) LITTLE_ENDIAN).1⟩

/-- C9: fail-fast.  Struct: if the fields declared before field `t` decode
(the struct made of them alone decodes, leaving the stream at `s1`) and the
decode of `t` at `s1` fails with error `err`, leaving the stream at `s2`, then
the decode of the whole struct returns exactly `err`, no struct, and the
stream at `s2`, whatever fields follow.  Array: if the first `k` elements
decode, giving the array `arrk` and the stream `sk`, and the decode of element
`k` fails with `erra` leaving the stream at `sa2`, then the decode of the
`n`-element array returns exactly `erra`, no array, and the stream at
`sa2`. -/
theorem C9_fail_fast (end_ : Nat)
    (s : Stream) (fs1 : List GoType) (t : GoType) (fs2 : List GoType) (v : Value)
    (s1 : Stream) (err : ParseError) (s2 : Stream)
    (h1 : ParseStructFromBinaryStream s (.struct fs1) end_ = (.ok v, s1))
    (h2 : doParseValue s1 t (zeroValue t) end_ = (.error err, s2))
    (n k : Nat) (elem : GoType) (sa : Stream) (arr arrk : Value) (sk : Stream)
    (erra : ParseError) (sa2 : Stream)
    (hk : k < n)
    (h3 : ParseArrayFromBinaryStream sa (.array k elem) arr end_ = (.ok arrk, sk))
    (h4 : doParseValue sk elem arrk end_ = (.error erra, sa2)) :
    ParseStructFromBinaryStream s (.struct (fs1 ++ t :: fs2)) end_ = (.error err, s2) ∧
    ParseArrayFromBinaryStream sa (.array n elem) arr end_ = (.error erra, sa2) := by
  constructor
  · obtain ⟨vals, hvals⟩ := structLoop_of_ParseStruct s fs1 end_ v s1 h1
    rw [ParseStructFromBinaryStream,
      structLoop_append_error end_ fs1 s vals s1 t fs2 err s2 hvals h2]
  · rw [ParseArrayFromBinaryStream] at h3 ⊢
    obtain ⟨m, rfl⟩ : ∃ m, n = k + (m + 1) := ⟨n - k - 1, by omega⟩
    rw [arrayLoop_add, h3]
    simp only [Nat.zero_add]
    rw [arrayLoop, h4]

/-- C9 at the struct `{uint8, chan, uint8}` and the two-element array of
`{uint8, chan}`, both on the stream `01 02 03`: the channel field fails after
one byte has been read, and that is where the stream stays. -/
theorem C9_fail_fast_witness :
    ParseStructFromBinaryStream [1, 2, 3] (.struct [.basic .Uint8]) BIG_ENDIAN =
      (.ok (.struct (.struct [.basic .Uint8]) [.integer .Uint8 1]), [2, 3]) ∧
    doParseValue [2, 3] (.basic .Chan) (zeroValue (.basic .Chan)) BIG_ENDIAN =
      (.error .variadicField, [2, 3]) ∧
    0 < 2 ∧
    ParseArrayFromBinaryStream [1, 2, 3] (.array 0 (.struct [.basic .Uint8, .basic .Chan]))
        (zeroValue (.array 2 (.struct [.basic .Uint8, .basic .Chan]))) BIG_ENDIAN =
      (.ok (zeroValue (.array 2 (.struct [.basic .Uint8, .basic .Chan]))), [1, 2, 3]) ∧
    doParseValue [1, 2, 3] (.struct [.basic .Uint8, .basic .Chan])
        (zeroValue (.array 2 (.struct [.basic .Uint8, .basic .Chan]))) BIG_ENDIAN =
      (.error .variadicField, [2, 3]) ∧
    ParseStructFromBinaryStream [1, 2, 3]
        (.struct ([.basic .Uint8] ++ .basic .Chan :: [.basic .Uint8])) BIG_ENDIAN =
      (.error .variadicField, [2, 3]) ∧
    ParseArrayFromBinaryStream [1, 2, 3] (.array 2 (.struct [.basic .Uint8, .basic .Chan]))
        (zeroValue (.array 2 (.struct [.basic .Uint8, .basic .Chan]))) BIG_ENDIAN =
      (.error .variadicField, [2, 3]) :=
  ⟨rfl, rfl, by decide, rfl, rfl,
   C9_fail_fast BIG_ENDIAN [1, 2, 3] [.basic .Uint8] (.basic .Chan) [.basic .Uint8]
     (.struct (.struct [.basic .Uint8]) [.integer .Uint8 1]) [2, 3] .variadicField [2, 3]
     rfl rfl 2 0 (.struct [.basic .Uint8, .basic .Chan]) [1, 2, 3]
     (zeroValue (.array 2 (.struct [.basic .Uint8, .basic .Chan])))
     (zeroValue (.array 2 (.struct [.basic .Uint8, .basic .Chan]))) [1, 2, 3]
     .variadicField [2, 3] (by decide) rfl rfl⟩

/-- C10, evaluated where the code departs from it.  The descriptor
`[2][3]uint8` is built from a supported primitive and fixed-length arrays and
has size 6, yet its decode on a stream of six bytes panics after one byte:
the inner array walker is handed the outer array and tries to store a `uint8`
in a slot of type `[3]uint8`.  The struct with a single `int` field has size 8
and its decode on eight bytes panics as well, the field being decoded as a
`uint64`. -/
theorem C10_nested_array_and_int_field_panic :
    Supported (.array 2 (.array 3 (.basic .Uint8))) ∧
    byteSize (.array 2 (.array 3 (.basic .Uint8))) = 6 ∧
    doParseValue [1, 2, 3, 4, 5, 6] (.array 2 (.array 3 (.basic .Uint8)))
        (zeroValue (.array 2 (.array 3 (.basic .Uint8)))) BIG_ENDIAN =
      (.panic, [2, 3, 4, 5, 6]) ∧
    ParseStructFromBinaryStream [1, 2, 3, 4, 5, 6]
        (.struct [.array 2 (.array 3 (.basic .Uint8))]) BIG_ENDIAN =
      (.panic, [2, 3, 4, 5, 6]) ∧
    Supported (.struct [.basic .Int]) ∧
    byteSize (.struct [.basic .Int]) = 8 ∧
    doParseValue [1, 2, 3, 4, 5, 6, 7, 8] (.struct [.basic .Int])
        (zeroValue (.struct [.basic .Int])) BIG_ENDIAN =
      (.panic, []) := by
  refine ⟨?_, rfl, rfl, rfl, ?_, rfl, rfl⟩ <;> simp [Supported, SupportedAll, supportedKinds]

/-- C11: for every supported primitive kind (bool, int, int8..int64, uint,
uint8..uint64, uintptr, float32, float64), every endian selector and every
byte run whose length is the width of the kind, `convToInvariadicValue`
returns a value: no error and no index out of range.  The result depends on
the bytes, the kind and the selector only: equal arguments give equal
results. -/
theorem C11_supported_kind_decodes (k : Kind) (hk : k ∈ supportedKinds)
    (buf : List Byte) (hlen : buf.length = k.Size) (end_ : Nat) :
    (∃ v, convToInvariadicValue buf k end_ = .ok v) ∧
    (∀ (buf2 : List Byte) (k2 : Kind) (e2 : Nat), buf2 = buf → k2 = k → e2 = end_ →
      convToInvariadicValue buf2 k2 e2 = convToInvariadicValue buf k end_) :=
  ⟨convToInvariadicValue_supported k hk buf hlen end_,
   fun _ _ _ h1 h2 h3 => by rw [h1, h2, h3]⟩

/-- C11 at the kind `int` and the bytes `00 .. 00 01` in big-endian order. -/
theorem C11_supported_kind_decodes_witness :
    Kind.Int ∈ supportedKinds ∧
    ([0, 0, 0, 0, 0, 0, 0, 1] : List Byte).length = Kind.Int.Size ∧
    ∃ v, convToInvariadicValue [0, 0, 0, 0, 0, 0, 0, 1] .Int BIG_ENDIAN = .ok v :=
  ⟨by simp [supportedKinds], rfl,
   (C11_supported_kind_decodes .Int (by simp [supportedKinds]) [0, 0, 0, 0, 0, 0, 0, 1] rfl
      BIG_ENDIAN).1⟩

/-- C12: for every byte `b` and every endian selector, the one-byte run `[b]`
decodes as a bool to `false` when `b` is `0x00` and to `true` otherwise; in
particular `0x00` gives `false` and `0x01` and `0xFF` give `true`. -/
theorem C12_bool_decode (b : Byte) (end_ : Nat) :
    convToInvariadicValue [b] .Bool end_ = .ok (.bool (if b = 0 then false else true)) ∧
    convToInvariadicValue [0x00] .Bool end_ = .ok (.bool false) ∧
    convToInvariadicValue [0x01] .Bool end_ = .ok (.bool true) ∧
    convToInvariadicValue [0xFF] .Bool end_ = .ok (.bool true) := by
  refine ⟨?_, rfl, rfl, rfl⟩
  simp only [convToInvariadicValue, List.head?]
  by_cases h : b = 0 <;> simp [h]

/-- C13: nested structs decode depth-first.  For every struct with fields
`fs1`, then a field whose type is the struct `inner`, then fields `fs2`, every
stream and every endian selector, the decode is the decode of `fs1`, followed
on the stream it leaves by the decode of `inner`, followed on the stream that
one leaves by the decode of `fs2`; the decode of the struct with the fields of
`inner` written in place of the struct field runs the same three decodes on
the same streams and merely lists the inner values among the outer ones.  So
the leaf values of the nested struct are those of the fully flattened struct,
and the two decodes stop alike (value, error or panic, and stream).  On
`{uint8, {uint16, uint8}, uint8}` and the bytes `01 02 03 04 05` in big-endian
order the inner struct holds `0x0203` and `4` and the last field `5`. -/
theorem C13_nested_struct_is_flattened (stream : Stream) (fs1 inner fs2 : List GoType)
    (end_ : Nat) :
    ParseStructFromBinaryStream stream (.struct (fs1 ++ .struct inner :: fs2)) end_ =
      andThen (ParseStructFromBinaryStream stream (.struct fs1) end_) (fun v1 s1 =>
        andThen (ParseStructFromBinaryStream s1 (.struct inner) end_) (fun vi s2 =>
          andThen (ParseStructFromBinaryStream s2 (.struct fs2) end_) (fun v2 s3 =>
            (.ok (.struct (.struct (fs1 ++ .struct inner :: fs2))
              (v1.fields ++ vi :: v2.fields)), s3)))) ∧
    ParseStructFromBinaryStream stream (.struct (fs1 ++ inner ++ fs2)) end_ =
      andThen (ParseStructFromBinaryStream stream (.struct fs1) end_) (fun v1 s1 =>
        andThen (ParseStructFromBinaryStream s1 (.struct inner) end_) (fun vi s2 =>
          andThen (ParseStructFromBinaryStream s2 (.struct fs2) end_) (fun v2 s3 =>
            (.ok (.struct (.struct (fs1 ++ inner ++ fs2))
              (v1.fields ++ vi.fields ++ v2.fields)), s3)))) ∧
    decodedLeaves
        (ParseStructFromBinaryStream stream (.struct (fs1 ++ .struct inner :: fs2)) end_) =
      decodedLeaves
        (ParseStructFromBinaryStream stream
          (.struct (flattenFields (fs1 ++ .struct inner :: fs2))) end_) ∧
    ParseStructFromBinaryStream [0x01, 0x02, 0x03, 0x04, 0x05]
        (.struct [.basic .Uint8, .struct [.basic .Uint16, .basic .Uint8], .basic .Uint8])
        BIG_ENDIAN =
      (.ok (.struct
        (.struct [.basic .Uint8, .struct [.basic .Uint16, .basic .Uint8], .basic .Uint8])
        [.integer .Uint8 1,
         .struct (.struct [.basic .Uint16, .basic .Uint8])
           [.integer .Uint16 0x0203, .integer .Uint8 4],
         .integer .Uint8 5]), []) := by
  refine ⟨?_, ?_, ?_, rfl⟩
  · simp only [ParseStruct_eq_andThen]
    rw [structLoop_append]
    rcases structLoop stream fs1 end_ with ⟨r, s1⟩
    cases r with
    | ok v1 =>
      simp only [andThen]
      rw [structLoop_cons, structLoop_struct_field]
      rcases structLoop s1 inner end_ with ⟨r2, s2⟩
      cases r2 with
      | ok vi =>
        simp only [andThen]
        rcases structLoop s2 fs2 end_ with ⟨r3, s3⟩
        cases r3 <;> simp [Value.fields]
      | error e2 => simp [andThen]
      | panic => simp [andThen]
    | error e2 => simp [andThen]
    | panic => simp [andThen]
  · simp only [ParseStruct_eq_andThen]
    rw [List.append_assoc, structLoop_append]
    rcases structLoop stream fs1 end_ with ⟨r, s1⟩
    cases r with
    | ok v1 =>
      simp only [andThen]
      rw [structLoop_append]
      rcases structLoop s1 inner end_ with ⟨r2, s2⟩
      cases r2 with
      | ok vi =>
        simp only [andThen]
        rcases structLoop s2 fs2 end_ with ⟨r3, s3⟩
        cases r3 <;> simp [Value.fields]
      | error e2 => simp [andThen]
      | panic => simp [andThen]
    | error e2 => simp [andThen]
    | panic => simp [andThen]
  · rw [decodedLeaves_ParseStruct, decodedLeaves_ParseStruct]
    exact structLoop_flatten end_ _ stream

/-- C14, evaluated where the code departs from it.  The array descriptor
`[2][3]uint8`, the example of the claim, on a stream of six bytes:
`ParseArrayFromBinaryStream` panics after one byte has been read, because the
walker of the inner array is handed the outer array and stores a `uint8` in a
slot of type `[3]uint8`.  The array `[2]int` on sixteen bytes panics after
eight, the element being decoded as a `uint64`.  An array of structs decodes
as the claim says: `[2]{uint8, uint8}` on `01 02 03 04` gives the structs
`{1, 2}` and `{3, 4}` at the positions 0 and 1. -/
theorem C14_array_of_arrays_panics :
    Supported (.array 2 (.array 3 (.basic .Uint8))) ∧
    ParseArrayFromBinaryStream [1, 2, 3, 4, 5, 6] (.array 2 (.array 3 (.basic .Uint8)))
        (zeroValue (.array 2 (.array 3 (.basic .Uint8)))) LITTLE_ENDIAN =
      (.panic, [2, 3, 4, 5, 6]) ∧
    ParseArrayFromBinaryStream [0, 0, 0, 0, 0, 0, 0, 1, 0, 0, 0, 0, 0, 0, 0, 2]
        (.array 2 (.basic .Int)) (zeroValue (.array 2 (.basic .Int))) BIG_ENDIAN =
      (.panic, [0, 0, 0, 0, 0, 0, 0, 2]) ∧
    ParseArrayFromBinaryStream [1, 2, 3, 4] (.array 2 (.struct [.basic .Uint8, .basic .Uint8]))
        (zeroValue (.array 2 (.struct [.basic .Uint8, .basic .Uint8]))) LITTLE_ENDIAN =
      (.ok (.array (.array 2 (.struct [.basic .Uint8, .basic .Uint8]))
        [.struct (.struct [.basic .Uint8, .basic .Uint8]) [.integer .Uint8 1, .integer .Uint8 2],
         .struct (.struct [.basic .Uint8, .basic .Uint8])
           [.integer .Uint8 3, .integer .Uint8 4]]), []) := by
  refine ⟨?_, rfl, rfl, rfl⟩
  simp [Supported, supportedKinds]

/-- C15 as stated fails: the kind `Complex64` is neither rejected as invalid or
unsupported nor routed to the struct or array walker, and on a stream of eight
bytes the conversion of the bytes read returns the error "type error", which
`doParseValue` passes on.  So it is not true that the conversion returns a
value for every kind that reaches it. -/
theorem C15_complex_reaches_conversion_error :
    (doParseValue [1, 2, 3, 4, 5, 6, 7, 8] (.basic .Complex64) (zeroValue (.basic .Complex64))
        BIG_ENDIAN = (.error .typeError, []) ∧
      ParseError.typeError.message = "type error") ∧
    ¬ (∀ k : Kind, k ≠ .Invalid → ¬ (Kind.Chan.toNat ≤ k.toNat ∧ k ≠ .Struct) →
        k ≠ .Struct → k ≠ .Array → ∀ (s : Stream) (e : Nat),
        ∃ v, convToInvariadicValue (Read s (List.replicate k.Size (0 : Byte))).1 k e = .ok v) := by
  refine ⟨⟨rfl, rfl⟩, ?_⟩
  intro h
  obtain ⟨v, hv⟩ := h .Complex64 (by decide) (by decide) (by decide) (by decide)
    [1, 2, 3, 4, 5, 6, 7, 8] BIG_ENDIAN
  have h2 : convToInvariadicValue
      (Read [1, 2, 3, 4, 5, 6, 7, 8] (List.replicate Kind.Complex64.Size (0 : Byte))).1
      .Complex64 BIG_ENDIAN = .error .typeError := rfl
  rw [h2] at hv
  cases hv

/-- C15, amended: among the kinds that `doParseValue` neither rejects as
invalid or unsupported nor routes to the struct or array walker, the
conversion error is returned for `Complex64` and `Complex128` and for no
other.  For every such kind other than these two, every stream and every
endian selector, the conversion of the bytes read returns a value, which is
the result of `doParseValue`; for `Complex64` and `Complex128` the conversion
returns "type error" and `doParseValue` returns that error after reading the
bytes of the type. -/
theorem C15_conversion_error_only_for_complex (k : Kind) (h1 : k ≠ .Invalid)
    (h2 : ¬ (Kind.Chan.toNat ≤ k.toNat ∧ k ≠ .Struct)) (h3 : k ≠ .Struct) (h4 : k ≠ .Array)
    (stream : Stream) (val : Value) (end_ : Nat) :
    (k ≠ .Complex64 → k ≠ .Complex128 →
      ∃ v, convToInvariadicValue (Read stream (List.replicate k.Size (0 : Byte))).1 k end_ =
          .ok v ∧
        doParseValue stream (.basic k) val end_ = (.ok v, stream.drop k.Size)) ∧
    (k = .Complex64 ∨ k = .Complex128 →
      convToInvariadicValue (Read stream (List.replicate k.Size (0 : Byte))).1 k end_ =
        .error .typeError ∧
      doParseValue stream (.basic k) val end_ = (.error .typeError, stream.drop k.Size)) := by
  constructor
  · intro h5 h6
    rcases default_branch_kinds k h1 h2 h3 h4 with h | h | h
    · exact doParseValue_supported k h stream val end_
    · exact absurd h h5
    · exact absurd h h6
  · intro h
    exact doParseValue_complex k h stream val end_

/-- C15, amended, at the kind `Float64` and the stream `01 .. 08`: the kind
reaches the conversion, which returns a value. -/
theorem C15_conversion_error_only_for_complex_witness :
    Kind.Float64 ≠ .Invalid ∧
    ¬ (Kind.Chan.toNat ≤ Kind.Float64.toNat ∧ Kind.Float64 ≠ .Struct) ∧
    Kind.Float64 ≠ .Struct ∧ Kind.Float64 ≠ .Array ∧
    ∃ v, convToInvariadicValue
        (Read [1, 2, 3, 4, 5, 6, 7, 8] (List.replicate Kind.Float64.Size (0 : Byte))).1
        .Float64 BIG_ENDIAN = .ok v ∧
      doParseValue [1, 2, 3, 4, 5, 6, 7, 8] (.basic .Float64) (zeroValue (.basic .Float64))
        BIG_ENDIAN = (.ok v, List.drop Kind.Float64.Size [1, 2, 3, 4, 5, 6, 7, 8]) :=
  ⟨by decide, by decide, by decide, by decide,
   (C15_conversion_error_only_for_complex .Float64 (by decide) (by decide) (by decide)
      (by decide) [1, 2, 3, 4, 5, 6, 7, 8] (zeroValue (.basic .Float64)) BIG_ENDIAN).1
      (by decide) (by decide)⟩

/-- C16: for every multi-byte numeric kind and every byte run of the width of
the kind, decoding the run under `LITTLE_ENDIAN` and decoding the reversed run
under `BIG_ENDIAN` give the same scalar; for the one-byte kinds bool, int8 and
uint8 the result is the same under any two endian selectors. -/
theorem C16_little_endian_is_reversed_big_endian (k : Kind) (hk : k ∈ multiByteKinds)
    (buf : List Byte) (hlen : buf.length = k.Size)
    (k1 : Kind) (hk1 : k1 ∈ singleByteKinds) (buf1 : List Byte) (e1 e2 : Nat) :
    (∃ v, convToInvariadicValue buf k LITTLE_ENDIAN = .ok v ∧
      convToInvariadicValue buf.reverse k BIG_ENDIAN = .ok v) ∧
    convToInvariadicValue buf1 k1 e1 = convToInvariadicValue buf1 k1 e2 := by
  refine ⟨?_, convToInvariadicValue_single_byte k1 hk1 buf1 e1 e2⟩
  have hs : k ∈ supportedKinds := by
    simp only [multiByteKinds, supportedKinds, List.mem_cons, List.mem_singleton,
      List.not_mem_nil, or_false] at hk ⊢
    tauto
  obtain ⟨v, hv⟩ := convToInvariadicValue_supported k hs buf hlen LITTLE_ENDIAN
  exact ⟨v, hv, by rw [← convToInvariadicValue_reverse k hk buf hlen, hv]⟩

/-- C16 at the kind `uint32` and the run `01 02 03 04`, and at the kind `int8`
and the run `ff`. -/
theorem C16_little_endian_is_reversed_big_endian_witness :
    Kind.Uint32 ∈ multiByteKinds ∧ ([1, 2, 3, 4] : List Byte).length = Kind.Uint32.Size ∧
    Kind.Int8 ∈ singleByteKinds ∧
    (∃ v, convToInvariadicValue [1, 2, 3, 4] .Uint32 LITTLE_ENDIAN = .ok v ∧
      convToInvariadicValue ([1, 2, 3, 4] : List Byte).reverse .Uint32 BIG_ENDIAN = .ok v) ∧
    convToInvariadicValue [0xff] .Int8 LITTLE_ENDIAN =
      convToInvariadicValue [0xff] .Int8 BIG_ENDIAN :=
  ⟨by simp [multiByteKinds], rfl, by simp [singleByteKinds],
   C16_little_endian_is_reversed_big_endian .Uint32 (by simp [multiByteKinds]) [1, 2, 3, 4] rfl
     .Int8 (by simp [singleByteKinds]) [0xff] LITTLE_ENDIAN BIG_ENDIAN⟩

/-- C17: the endian selector is only compared with `LITTLE_ENDIAN`, which is 0.
For every selector other than 0, every kind and every byte run,
`convToInvariadicValue` returns what it returns for `BIG_ENDIAN`, which is 1;
no selector is refused. -/
theorem C17_any_nonzero_end_is_big_endian (buf : List Byte) (kind : Kind) (end_ : Nat)
    (h : end_ ≠ 0) :
    convToInvariadicValue buf kind end_ = convToInvariadicValue buf kind BIG_ENDIAN ∧
    LITTLE_ENDIAN = 0 ∧ BIG_ENDIAN = 1 :=
  ⟨convToInvariadicValue_end buf kind end_ h, rfl, rfl⟩

/-- C17 at the selector 7, the kind `uint16` and the run `01 02`: the result is
the big-endian value 258. -/
theorem C17_any_nonzero_end_is_big_endian_witness :
    (7 : Nat) ≠ 0 ∧
    convToInvariadicValue [0x01, 0x02] .Uint16 7 = .ok (.integer .Uint16 258) ∧
    convToInvariadicValue [0x01, 0x02] .Uint16 BIG_ENDIAN = .ok (.integer .Uint16 258) :=
  ⟨by decide,
   (C17_any_nonzero_end_is_big_endian [0x01, 0x02] .Uint16 7 (by decide)).1.trans rfl, rfl⟩

end Gosp
